import Mathlib

/-!
Verification of the transaction extraction & classification pipeline of the
bank-statement analyzer.

The Python sources are shallowly embedded: strings are `String`/`List Char`,
Python floats are modelled exactly as rationals (`ℚ`; every numeric literal in
the relevant code paths is a short decimal, so the rational model agrees with
the float semantics on every comparison the code performs), dictionaries of
transactions become an option-field record `PyTx`, and fallible operations
return `Option`.  Character classes of the `re` module are modelled over ASCII
(the inputs in scope are statement text); the non-finite `float` literals
`"inf"`/`"nan"` and non-ASCII digits accepted by `float()` are outside the
decimal model.
-/

namespace BankSpec

/-! ### Character utilities (ASCII model of Python's `str` and `re` classes) -/

/-- Python whitespace (`str.strip`, `\s`), ASCII part. -/
def pyIsWs (c : Char) : Bool :=
  c = ' ' || c = '\t' || c = '\n' || c = '\x0d' || c = '\x0b' || c = '\x0c'

/-- ASCII decimal digit (`\d`). -/
def isDig (c : Char) : Bool := '0' ≤ c && c ≤ '9'

/-- Word character (`\w`), ASCII part. -/
def isWord (c : Char) : Bool := c.isAlpha || isDig c || c = '_'

/-- Python `str.lower` on one character (ASCII part). -/
def pyLowerChar (c : Char) : Char :=
  if 'A' ≤ c && c ≤ 'Z' then Char.ofNat (c.toNat + 32) else c

/-- Python `str.lower`. -/
def pyLower (l : List Char) : List Char := l.map pyLowerChar

/-- Python `str.strip()`: drop whitespace from both ends. -/
def pyStrip (l : List Char) : List Char :=
  ((l.dropWhile pyIsWs).reverse.dropWhile pyIsWs).reverse

/-- Python `str.strip()` on a `String`. -/
def pyStripStr (s : String) : String := ⟨pyStrip s.data⟩

/-- Python substring containment (`needle in hay`). -/
def hasSub (needle hay : List Char) : Bool :=
  hay.tails.any (fun t => needle.isPrefixOf t)

/-- Value of a decimal digit character. -/
def digVal (c : Char) : ℕ := c.toNat - 48

/-- Numeric value of a string of decimal digits (`int(...)` on digit strings). -/
def toNatD (l : List Char) : ℕ := l.foldl (fun a c => a * 10 + digVal c) 0

/-- Decimal digit character for `n < 10`. -/
def digChar (n : ℕ) : Char := Char.ofNat (48 + n % 10)

/-- Decimal digits of a natural number, most significant first (structural
fuel recursion so that the kernel can evaluate it; `n + 1` steps always
suffice since the argument at least halves each step). -/
def natToCharsF : ℕ → ℕ → List Char
  | 0, _ => []
  | fuel + 1, n => if n < 10 then [digChar n] else natToCharsF fuel (n / 10) ++ [digChar (n % 10)]

/-- Decimal digits of a natural number, most significant first. -/
def natToChars (n : ℕ) : List Char := natToCharsF (n + 1) n

/-- Left-pad with zeros to width `w` (Python `f string` `0Nd` formatting of a
nonnegative integer). -/
def zeroPad (w : ℕ) (l : List Char) : List Char :=
  List.replicate (w - l.length) '0' ++ l

/-! ### Amount normalization

`IncomeExpenseAnalyzer._clean_amount` and `EnhancedPDFReader.clean_amount`. -/

/-- A value stored in a transaction dict: a number or a string. -/
inductive PyVal where
  | num (q : ℚ)
  | str (s : String)
deriving DecidableEq

/-- Parse of `float(s)` for finite decimal literals, as an exact rational.
Mirrors the accepted grammar: surrounding whitespace, an optional sign, an
integer and/or fractional digit part, an optional exponent; underscores are
allowed between digits (PEP 515). -/
def digitsU : ℕ → ℕ → List Char → (ℕ × ℕ × List Char)
  | v, n, [] => (v, n, [])
  | v, n, c :: rest =>
    if isDig c then digitsU (v * 10 + digVal c) (n + 1) rest
    else if c = '_' then
      match rest with
      | d :: r2 => if isDig d then digitsU (v * 10 + digVal d) (n + 1) r2
                   else (v, n, c :: rest)
      | [] => (v, n, c :: rest)
    else (v, n, c :: rest)

/-- Exponent suffix of a `float` literal: `(e|E)(+|-)?digits`.
Returns the signed exponent if the whole remainder is consumed. -/
def parseExp (l : List Char) : Option ℤ :=
  match l with
  | [] => some 0
  | e :: r1 =>
    if e = 'e' || e = 'E' then
      let (sgn, r2) : ℤ × List Char :=
        match r1 with
        | '+' :: r => (1, r)
        | '-' :: r => (-1, r)
        | r => (1, r)
      match r2 with
      | c :: _ =>
        if isDig c then
          match digitsU 0 0 r2 with
          | (v, _, []) => some (sgn * v)
          | _ => none
        else none
      | [] => none
    else none

/-- The mantissa part of a `float` literal: `digits [. digits]` or `. digits`;
returns `(integer part, fraction digits value, fraction digit count, rest)`. -/
def parseMantissa (l : List Char) : Option (ℕ × ℕ × ℕ × List Char) :=
  match l with
  | c :: _ =>
    if isDig c then
      match digitsU 0 0 l with
      | (iv, _, r) =>
        match r with
        | '.' :: r2 =>
          match digitsU 0 0 r2 with
          | (fv, fn, r3) => some (iv, fv, fn, r3)
        | _ => some (iv, 0, 0, r)
    else if c = '.' then
      match l with
      | _ :: r2 =>
        match r2 with
        | d :: _ =>
          if isDig d then
            match digitsU 0 0 r2 with
            | (fv, fn, r3) => some (0, fv, fn, r3)
          else none
        | [] => none
      | [] => none
    else none
  | [] => none

/-- The fully parsed representation of a finite `float` literal:
`(negative?, integer part, fraction value, fraction digits, exponent)`. -/
def parseFloatRep (s : String) : Option (Bool × ℕ × ℕ × ℕ × ℤ) :=
  let l := pyStrip s.data
  let (neg, l1) : Bool × List Char :=
    match l with
    | '+' :: r => (false, r)
    | '-' :: r => (true, r)
    | r => (false, r)
  match parseMantissa l1 with
  | some (iv, fv, fn, rest) =>
    match parseExp rest with
    | some e => some (neg, iv, fv, fn, e)
    | none => none
  | none => none

/-- The rational denoted by a parsed `float` literal. -/
def ratOfRep (r : Bool × ℕ × ℕ × ℕ × ℤ) : ℚ :=
  let v := ((r.2.1 : ℚ) + (r.2.2.1 : ℚ) / (10 : ℚ) ^ r.2.2.2.1) * (10 : ℚ) ^ r.2.2.2.2
  if r.1 then -v else v

/-- `float(s)` on finite decimal literals (`None` models `ValueError`). -/
def parseFloat (s : String) : Option ℚ :=
  (parseFloatRep s).map ratOfRep

/-- Shared tail of both amount cleaners: the parenthesis-negation and
leading-`+` rewriting that produces the string handed to `float(...)`. -/
def cleanCoreStr (cleaned : List Char) : List Char :=
  let c1 :=
    if cleaned.head? = some '(' && cleaned.getLast? = some ')' then
      '-' :: (cleaned.drop 1).dropLast
    else cleaned
  if c1.head? = some '+' then c1.drop 1 else c1

/-- Shared tail of both amount cleaners: parenthesis-negation, leading `+`,
then `float(...)`, with any parse failure yielding `0.0`. -/
def cleanCore (cleaned : List Char) : ℚ :=
  (parseFloat ⟨cleanCoreStr cleaned⟩).getD 0

/-- `IncomeExpenseAnalyzer._clean_amount`: numbers pass through; strings are
cleaned of `$` and `,`, stripped, paren-negated, `+`-stripped, parsed. -/
def cleanAmount : PyVal → ℚ
  | .num q => q
  | .str s =>
    cleanCore (pyStrip (s.data.filter (fun c => !(c = '$' || c = ','))))

/-- `EnhancedPDFReader.clean_amount`: strips first, then removes `$` and `,`
(`re.sub`), then the same paren/plus/parse steps. -/
def cleanAmountR (s : String) : ℚ :=
  cleanCore ((pyStrip s.data).filter (fun c => !(c = '$' || c = ',')))

/-! ### Existence semantics for the classifier's regex patterns

`IncomeExpenseAnalyzer._analyze_patterns` only tests `re.search(...)` for
truthiness, so each pattern is modelled by an existence matcher.  The patterns
use only literals, alternation, the classes `\s`, `\d`, `.`, and the
quantifiers `+` (on a class) and `*` (on `.`), captured by `Pat` below. -/

inductive Pat where
  | lit (cs : List Char)
  | seq (p q : Pat)
  | alt (p q : Pat)
  | one (f : Char → Bool)
  | many (f : Char → Bool)
deriving Inhabited

/-- All remainders after matching `p` against a prefix of `s`. -/
def Pat.matchEnds : Pat → List Char → List (List Char)
  | .lit cs, s => if cs.isPrefixOf s then [s.drop cs.length] else []
  | .seq p q, s => (p.matchEnds s).flatMap q.matchEnds
  | .alt p q, s => p.matchEnds s ++ q.matchEnds s
  | .one f, s =>
    match s with
    | [] => []
    | c :: rest => if f c then [rest] else []
  | .many f, s => (List.range ((s.takeWhile f).length + 1)).map (s.drop ·)

/-- `re.search(p, s)` truthiness: some suffix of `s` starts with a match. -/
def Pat.searchB (p : Pat) (s : List Char) : Bool :=
  s.tails.any (fun t => !(p.matchEnds t).isEmpty)

/-- One-or-more repetition of a character class (`\s+`, `\d+`). -/
def plusCls (f : Char → Bool) : Pat := .seq (.one f) (.many f)

/-- `.*` (a dot does not match a newline). -/
def dotStar : Pat := .many (fun c => c ≠ '\n')

/-- Literal pattern from a string. -/
def litP (s : String) : Pat := .lit s.data

/-! ### The income/expense analyzer (`income_expense_analyzer.py`) -/

/-- The strong income regexes, in source order, each with its source text
(the text is interpolated into the classification reason). -/
def incomePatterns : List (Pat × String) :=
  [ (.alt (litP "direct dep") (.alt (.seq (litP "dd") (plusCls pyIsWs))
      (.alt (litP "payroll") (litP "salary"))),
     "direct dep|dd\\s+|payroll|salary"),
    (.alt (litP "ach credit") (.seq (litP "credit") (.seq (plusCls pyIsWs) (plusCls isDig))),
     "ach credit|credit\\s+\\d+"),
    (.alt (.seq (litP "deposit") (.seq dotStar (litP "+")))
          (.seq (litP "+") (.seq dotStar (litP "deposit"))),
     "deposit.*\\+|\\+.*deposit"),
    (.alt (litP "refund") (.alt (litP "return") (litP "reimbursement")),
     "refund|return|reimbursement"),
    (.alt (.seq (litP "interest") (.seq dotStar (litP "earned"))) (litP "dividend"),
     "interest.*earned|dividend"),
    (.alt (.seq (litP "transfer") (.seq dotStar (litP "in"))) (litP "incoming"),
     "transfer.*in|incoming") ]

/-- The strong expense regexes, in source order. -/
def expensePatterns : List (Pat × String) :=
  [ (.alt (litP "debit purchase") (.alt (litP "pos purchase") (litP "card purchase")),
     "debit purchase|pos purchase|card purchase"),
    (.alt (litP "withdrawal") (.alt (litP "atm") (litP "cash advance")),
     "withdrawal|atm|cash advance"),
    (.alt (.seq (litP "check") (.seq dotStar (plusCls isDig)))
          (.seq (litP "ck") (.seq (plusCls pyIsWs) (plusCls isDig))),
     "check.*\\d+|ck\\s+\\d+"),
    (.alt (.seq (litP "payment") (.seq dotStar (litP "to")))
          (.seq (litP "pay") (.seq (plusCls pyIsWs) (litP "to"))),
     "payment.*to|pay\\s+to"),
    (.alt (litP "fee") (.alt (litP "charge") (litP "penalty")),
     "fee|charge|penalty"),
    (.alt (.seq (litP "transfer") (.seq dotStar (litP "out"))) (litP "outgoing"),
     "transfer.*out|outgoing") ]

/-- `_analyze_patterns`: first matching income regex wins at 0.9, then the
expense regexes, else no evidence. -/
def analyzePatterns (d : List Char) : Option String × ℚ × String :=
  match incomePatterns.find? (fun pr => pr.1.searchB d) with
  | some pr => (some "income", 0.9, "Income pattern: " ++ pr.2)
  | none =>
    match expensePatterns.find? (fun pr => pr.1.searchB d) with
    | some pr => (some "expense", 0.9, "Expense pattern: " ++ pr.2)
    | none => (none, 0, "No pattern match")

/-- `self.income_keywords`, in source order. -/
def incomeKeywords : List (String × List String) :=
  [ ("salary", ["salary", "payroll", "wages", "income", "pay check", "paycheck"]),
    ("deposit", ["deposit", "direct deposit", "ach credit", "credit", "transfer in"]),
    ("refund", ["refund", "return", "reimbursement", "cashback", "cash back"]),
    ("interest", ["interest", "dividend", "earnings"]),
    ("business", ["payment received", "invoice payment", "client payment"]),
    ("government", ["tax refund", "stimulus", "unemployment", "social security"]),
    ("other", ["bonus", "commission", "freelance", "consulting"]) ]

/-- `self.expense_keywords`, in source order. -/
def expenseKeywords : List (String × List String) :=
  [ ("retail", ["purchase", "walmart", "target", "amazon", "costco", "store"]),
    ("food", ["restaurant", "cafe", "food", "dining", "mcdonald", "starbucks", "pizza"]),
    ("transport", ["gas", "fuel", "uber", "lyft", "taxi", "parking", "toll"]),
    ("utilities", ["electric", "water", "gas bill", "internet", "phone", "cable"]),
    ("healthcare", ["hospital", "pharmacy", "doctor", "medical", "dental"]),
    ("banking", ["fee", "charge", "atm", "overdraft", "service charge"]),
    ("entertainment", ["movie", "netflix", "spotify", "gaming", "entertainment"]),
    ("housing", ["rent", "mortgage", "insurance", "property"]),
    ("other", ["withdrawal", "debit", "payment", "transfer out"]) ]

/-- The keywords of one side that occur in the description, tagged as in the
source (`income:kw` / `expense:kw`), in iteration order. -/
def matchedKws (tag : String) (tbl : List (String × List String)) (d : List Char) :
    List String :=
  tbl.flatMap (fun cat => (cat.2.filter (fun k => hasSub k.data d)).map (fun k => tag ++ k))

/-- `_analyze_keywords`: hit counting on both keyword sets; the larger side
wins with confidence `min 0.8 (0.5 + 0.1 * margin)`. -/
def analyzeKeywords (d : List Char) : Option String × ℚ × String :=
  let incM := matchedKws "income:" incomeKeywords d
  let expM := matchedKws "expense:" expenseKeywords d
  let incomeScore := incM.length
  let expenseScore := expM.length
  if incomeScore > expenseScore then
    (some "income", min 0.8 (0.5 + ((incomeScore - expenseScore : ℕ) : ℚ) * 0.1),
     "Keywords: " ++ String.intercalate ", " ((incM ++ expM).take 3))
  else if expenseScore > incomeScore then
    (some "expense", min 0.8 (0.5 + ((expenseScore - incomeScore : ℕ) : ℚ) * 0.1),
     "Keywords: " ++ String.intercalate ", " ((incM ++ expM).take 3))
  else (none, 0, "No keyword match")

/-- Round-half-even of `q * 100`, the rounding used by float `.2f` formatting
(exact on the decimals that occur in this pipeline). -/
def cents (q : ℚ) : ℤ :=
  let r := q * 100
  let z := ⌊r⌋
  if r - z > 1/2 then z + 1
  else if r - z < 1/2 then z
  else if z % 2 = 0 then z else z + 1

/-- Python `f string` `:.2f` formatting of an amount. -/
def fmt2 (q : ℚ) : String :=
  let n := (cents |q|).toNat
  let sign : List Char := if q < 0 then ['-'] else []
  ⟨sign ++ natToChars (n / 100) ++ '.' :: zeroPad 2 (natToChars (n % 100))⟩

/-- `_combine_analyses`, translated branch for branch.  Python's truthiness
test `if pattern_type` / `if keyword_type` is `Option.isSome` here (the types
produced are the nonempty strings `income` / `expense`). -/
def combineAnalyses (baseType : String) (baseConf : ℚ)
    (patternR keywordR : Option String × ℚ × String) (amount : ℚ) :
    String × ℚ × String :=
  let amountReason := "Amount-based classification ($" ++ fmt2 amount ++ ")"
  let step3 : String × ℚ × String :=
    match keywordR.1 with
    | some kt =>
      if kt ≠ baseType ∧ keywordR.2.1 ≥ 0.4 then
        (baseType, max 0.3 (baseConf - 0.2),
         "Amount-based (" ++ baseType ++ ") but " ++ keywordR.2.2)
      else (baseType, baseConf, amountReason)
    | none => (baseType, baseConf, amountReason)
  let step2 : String × ℚ × String :=
    match keywordR.1 with
    | some kt => if keywordR.2.1 ≥ 0.6 then (kt, keywordR.2.1, keywordR.2.2) else step3
    | none => step3
  match patternR.1 with
  | some pt => if patternR.2.1 ≥ 0.8 then (pt, patternR.2.1, patternR.2.2) else step2
  | none => step2

/-- `TransactionType` dataclass. -/
structure TransactionType where
  type : String
  confidence : ℚ
  reason : String
deriving DecidableEq

/-- A transaction dict.  Absent keys are `none`; `objId` models Python object
identity (`dict.copy()` yields a record with a fresh `objId`). -/
structure PyTx where
  objId : ℕ := 0
  date : Option String := none
  description : Option String := none
  amount : Option PyVal := none
  sourceFile : Option String := none
  rawLine : Option String := none
  category : Option String := none
  transactionType : Option String := none
  typeConfidence : Option ℚ := none
  typeReason : Option String := none
deriving DecidableEq

/-- `analyze_transaction`: amount-sign baseline, then pattern and keyword
evidence combined by `_combine_analyses`. -/
def analyzeTransaction (t : PyTx) : TransactionType :=
  let description := pyStrip (pyLower (t.description.getD "").data)
  let amount := cleanAmount (t.amount.getD (.num 0))
  let base : String × ℚ :=
    if amount > 0 then ("income", 0.6)
    else if amount < 0 then ("expense", 0.6)
    else ("expense", 0.3)
  let r := combineAnalyses base.1 base.2 (analyzePatterns description)
    (analyzeKeywords description) amount
  ⟨r.1, r.2.1, r.2.2⟩

/-- Largest `objId` among a batch (fresh ids are allocated above it). -/
def maxId (txs : List PyTx) : ℕ := txs.foldr (fun t a => max t.objId a) 0

/-- `classify_transactions` body: each transaction is copied (fresh `objId`)
and the three classification fields are set on the copy. -/
def classifyFrom (fresh : ℕ) : List PyTx → List PyTx
  | [] => []
  | t :: ts =>
    let c := analyzeTransaction t
    { t with objId := fresh, transactionType := some c.type,
             typeConfidence := some c.confidence, typeReason := some c.reason } ::
      classifyFrom (fresh + 1) ts

/-- `classify_transactions`. -/
def classifyTransactions (txs : List PyTx) : List PyTx :=
  classifyFrom (maxId txs + 1) txs

/-! ### The keyword categorizer (`keyword_matcher.py`)

`difflib.SequenceMatcher.ratio()` is embedded as the Ratcliff/Obershelp
matching-character count (no junk; `autojunk` only affects strings of 200+
characters, longer than anything in scope). -/

/-- Ascending positions `j ∈ [blo, bhi)` with `b[j] = c` (the `b2j` table). -/
def occPositions (b : List Char) (blo bhi : ℕ) (c : Char) : List ℕ :=
  ((List.range b.length).filter
    (fun j => blo ≤ j && j < bhi && b.get? j = some c))

/-- One row step of `find_longest_match`: process the matches of `a[i]` in
ascending `j` order, extending runs recorded in the previous row `j2len`. -/
def flmRow (i : ℕ) (js : List ℕ) (j2len : List (ℕ × ℕ)) (best : ℕ × ℕ × ℕ) :
    List (ℕ × ℕ) × (ℕ × ℕ × ℕ) :=
  js.foldl
    (fun (st : List (ℕ × ℕ) × (ℕ × ℕ × ℕ)) j =>
      let k := (if j = 0 then 0 else ((j2len.lookup (j - 1)).getD 0)) + 1
      let newRow := (j, k) :: st.1
      let b := st.2
      if k > b.2.2 then (newRow, (i + 1 - k, j + 1 - k, k)) else (newRow, b))
    ([], best)

/-- `find_longest_match` over `a[alo:ahi]`, `b[blo:bhi]` (junk-free): iterate
rows `i = alo .. ahi-1`, threading the previous row and the best block. -/
def findLongestMatch (a b : List Char) (alo ahi blo bhi : ℕ) : ℕ × ℕ × ℕ :=
  (((List.range ahi).drop alo).foldl
    (fun (st : List (ℕ × ℕ) × (ℕ × ℕ × ℕ)) i =>
      match a.get? i with
      | some c => flmRow i (occPositions b blo bhi c) st.1 st.2
      | none => st)
    ([], (alo, blo, 0))).2

/-- Total matched characters of `get_matching_blocks`, by the recursive
longest-match decomposition (`fuel` bounds the recursion depth; it is called
with more fuel than the ranges can consume). -/
def smMatchesRec (fuel : ℕ) (a b : List Char) (alo ahi blo bhi : ℕ) : ℕ :=
  match fuel with
  | 0 => 0
  | fuel + 1 =>
    let (i, j, k) := findLongestMatch a b alo ahi blo bhi
    if k = 0 then 0
    else smMatchesRec fuel a b alo i blo j + k + smMatchesRec fuel a b (i + k) ahi (j + k) bhi

/-- Matching characters of `SequenceMatcher(None, a, b)`. -/
def smMatches (a b : List Char) : ℕ :=
  smMatchesRec (a.length + b.length + 1) a b 0 a.length 0 b.length

/-- `SequenceMatcher.ratio()`: `2*M / (len(a)+len(b))`, `1.0` on two empties. -/
def smRatio (a b : List Char) : ℚ :=
  if a.length + b.length = 0 then 1
  else (2 * smMatches a b : ℚ) / ((a.length : ℚ) + (b.length : ℚ))

/-- One category's keyword configuration: a plain list, or the tiered
`exact`/`fuzzy`/`regex` dict.  A configured (compiled) regex is embedded as
its match predicate on the lower-cased description, paired with its source
text. -/
inductive KwCfg where
  | plain (kws : List String)
  | tiered (exacts fuzzies : List String) (regexes : List (String × (List Char → Bool)))

/-- A keyword table: category name to configuration, in iteration order. -/
def KwTable := List (String × KwCfg)

/-- `_exact_match`: first category one of whose exact keywords (lower-cased)
occurs in the description. -/
def exactMatch (tbl : KwTable) (d : List Char) : Option String :=
  (tbl.find? (fun cat =>
    (match cat.2 with
     | .plain kws => kws
     | .tiered es _ _ => es).any (fun k => hasSub (pyLower k.data) d))).map (·.1)

/-- `_fuzzy_match`: best similarity across all tiered categories; a literal
substring hit floors the similarity at 0.9; accept only strictly above the
0.8 threshold, strictly improving on the best so far. -/
def fuzzyMatch (tbl : KwTable) (d : List Char) : Option String :=
  (tbl.foldl
    (fun (best : Option String × ℚ) cat =>
      match cat.2 with
      | .plain _ => best
      | .tiered _ fzs _ =>
        fzs.foldl
          (fun (b : Option String × ℚ) k =>
            let sim0 := smRatio (pyLower k.data) d
            let sim := if hasSub (pyLower k.data) d then max sim0 0.9 else sim0
            if sim > 0.8 ∧ sim > b.2 then (some cat.1, sim) else b)
          best)
    (none, 0)).1

/-- `_regex_match`: first category one of whose regexes matches. -/
def regexMatch (tbl : KwTable) (d : List Char) : Option String :=
  (tbl.find? (fun cat =>
    match cat.2 with
    | .plain _ => false
    | .tiered _ _ res => res.any (fun r => r.2 d))).map (·.1)

/-- `match_transaction`: exact, then fuzzy, then regex; the amount argument
is accepted and unused, as in the source. -/
def matchTransaction (tbl : KwTable) (description : String) (_amount : ℚ) :
    Option String :=
  let d := pyStrip (pyLower description.data)
  match exactMatch tbl d with
  | some c => some c
  | none =>
    match fuzzyMatch tbl d with
    | some c => some c
    | none => regexMatch tbl d

/-- Amount coercion in `batch_categorize`: strings are cleaned of `$`/`,` and
parsed, with failures becoming `0`. -/
def batchAmount : PyVal → ℚ
  | .num q => q
  | .str s => (parseFloat ⟨s.data.filter (fun c => !(c = '$' || c = ','))⟩).getD 0

/-- `batch_categorize` body: each transaction is copied (fresh `objId`) and
`category` is set on the copy, `'Uncategorized'` when nothing matched. -/
def categorizeFrom (tbl : KwTable) (fresh : ℕ) : List PyTx → List PyTx
  | [] => []
  | t :: ts =>
    let cat := matchTransaction tbl (t.description.getD "") (batchAmount (t.amount.getD (.num 0)))
    { t with objId := fresh, category := some (cat.getD "Uncategorized") } ::
      categorizeFrom tbl (fresh + 1) ts

/-- `batch_categorize`. -/
def batchCategorize (tbl : KwTable) (txs : List PyTx) : List PyTx :=
  categorizeFrom tbl (maxId txs + 1) txs

/-- Substring-chain predicate: the meaning of a template regex of the form
`.*w1.*w2.*` on a line (an occurrence of `w1` followed by one of `w2`). -/
def hasSubSeq2 (w1 w2 : String) (d : List Char) : Bool :=
  d.tails.any (fun t => w1.data.isPrefixOf t && hasSub w2.data (t.drop w1.data.length))

/-- The default keyword table written by `export_keywords_template` and loaded
back by `main.py` when no `config/keywords.json` exists.  Each template regex
is embedded as its match predicate on the lower-cased description. -/
def defaultKeywords : KwTable :=
  [ ("Food & Dining", .tiered ["restaurant", "cafe", "pizza", "mcdonald", "starbucks", "subway"]
      ["dining", "food", "lunch", "dinner"]
      [(".*restaurant.*", hasSub "restaurant".data), (".*cafe.*", hasSub "cafe".data)]),
    ("Transportation", .tiered ["gas", "fuel", "uber", "lyft", "taxi", "parking"]
      ["transport", "travel"]
      [(".*gas.*station.*", hasSubSeq2 "gas" "station"), (".*parking.*", hasSub "parking".data)]),
    ("Shopping", .tiered ["amazon", "walmart", "target", "costco", "mall"]
      ["shopping", "store"]
      [(".*shop.*", hasSub "shop".data), (".*store.*", hasSub "store".data)]),
    ("Utilities", .tiered ["electric", "water", "gas bill", "internet", "phone"]
      ["utility", "bill"]
      [(".*electric.*company.*", hasSubSeq2 "electric" "company"),
       (".*water.*dept.*", hasSubSeq2 "water" "dept")]),
    ("Healthcare", .tiered ["hospital", "pharmacy", "doctor", "medical"]
      ["health", "medical"]
      [(".*medical.*", hasSub "medical".data), (".*pharmacy.*", hasSub "pharmacy".data)]) ]

/-! ### The generic statement parser (`EnhancedPDFReader._parse_generic_statement`)

`re.findall` is embedded by deterministic matchers.  For every pattern below
the backtracking order of the `re` engine collapses to a single deterministic
choice (each optional / greedy piece is either forced or cannot affect
success), so a scan that at each position takes the greedy match and
otherwise advances one character computes exactly `findall`. -/

/-- Leading run of `(?:,\d{3})*`: returns consumed length and rest. -/
def commaGroups : List Char → ℕ × List Char
  | ',' :: d1 :: d2 :: d3 :: rest =>
    if isDig d1 && isDig d2 && isDig d3 then
      let (n, r) := commaGroups rest
      (4 + n, r)
    else (0, ',' :: d1 :: d2 :: d3 :: rest)
  | l => (0, l)

/-- Length of the amount-pattern match `[-+]?\$?\d{1,3}(?:,\d{3})*\.?\d{0,2}`
starting exactly here, if any. -/
def amountMatchLen (s : List Char) : Option ℕ :=
  let (n1, s1) : ℕ × List Char :=
    match s with
    | c :: r => if c = '-' || c = '+' then (1, r) else (0, s)
    | [] => (0, s)
  let (n2, s2) : ℕ × List Char :=
    match s1 with
    | '$' :: r => (1, r)
    | _ => (0, s1)
  let run := (s2.takeWhile isDig).length
  if run = 0 then none
  else
    let k1 := min run 3
    let s3 := s2.drop k1
    let (kc, s4) := commaGroups s3
    let (kd, s5) : ℕ × List Char :=
      match s4 with
      | '.' :: r => (1, r)
      | _ => (0, s4)
    let k2 := min (s5.takeWhile isDig).length 2
    some (n1 + n2 + k1 + kc + kd + k2)

/-- Generic `findall` scan: at each position try `matchAt` (which sees the
previous character, for word boundaries); on a match emit the token and
resume after it, otherwise advance one character. -/
def scanTokensF (matchAt : Option Char → List Char → Option ℕ) :
    ℕ → Option Char → List Char → List (List Char)
  | 0, _, _ => []
  | _ + 1, _, [] => []
  | fuel + 1, prev, c :: rest =>
    match matchAt prev (c :: rest) with
    | some n =>
      if n = 0 then scanTokensF matchAt fuel (some c) rest
      else
        ((c :: rest).take n) ::
          scanTokensF matchAt fuel (((c :: rest).take n).getLast?) ((c :: rest).drop n)
    | none => scanTokensF matchAt fuel (some c) rest

/-- Generic `findall` scan entry point: the scan consumes at least one
character per step, so `s.length` steps of fuel always suffice. -/
def scanTokens (matchAt : Option Char → List Char → Option ℕ)
    (prev : Option Char) (s : List Char) : List (List Char) :=
  scanTokensF matchAt s.length prev s

/-- Is the scan position at a word boundary, given the previous character
(the matchers below all begin with a digit)? -/
def atBoundary (prev : Option Char) : Bool :=
  match prev with
  | none => true
  | some c => !isWord c

/-- Do `k` digit characters start here?  Returns the rest. -/
def takeDigits (k : ℕ) (s : List Char) : Option (List Char) :=
  let pre := s.take k
  if pre.length = k && pre.all isDig then some (s.drop k) else none

/-- A `/` or `-` date separator. -/
def isSep (c : Char) : Bool := c = '/' || c = '-'

/-- Match slash/dash-separated `\d{k1} \d{k2} \d{k3}` here, returning the rest. -/
def matchDDD (k1 k2 k3 : ℕ) (s : List Char) : Option (List Char) :=
  match takeDigits k1 s with
  | none => none
  | some r1 =>
    match r1 with
    | c :: r2 =>
      if isSep c then
        match takeDigits k2 r2 with
        | none => none
        | some r3 =>
          match r3 with
          | c2 :: r4 => if isSep c2 then takeDigits k3 r4 else none
          | [] => none
      else none
    | [] => none

/-- The rest is at a closing word boundary. -/
def closesBoundary (r : List Char) : Bool :=
  match r with
  | [] => true
  | c :: _ => !isWord c

/-- The quantifier combinations of `\d{1,2}.\d{1,2}.\d{2,4}`, in the
backtracking preference order of the engine (all mutually exclusive here). -/
def dddCombos : List (ℕ × ℕ × ℕ) :=
  [(2,2,4),(2,2,3),(2,2,2),(2,1,4),(2,1,3),(2,1,2),(1,2,4),(1,2,3),(1,2,2),(1,1,4),(1,1,3),(1,1,2)]

/-- Matcher for `\b\d{1,2} sep \d{1,2} sep \d{2,4}\b` (sep a slash or dash) at this position. -/
def dateP1At (prev : Option Char) (s : List Char) : Option ℕ :=
  if atBoundary prev then
    dddCombos.findSome? (fun c =>
      match matchDDD c.1 c.2.1 c.2.2 s with
      | some r => if closesBoundary r then some (c.1 + c.2.1 + c.2.2 + 2) else none
      | none => none)
  else none

/-- Matcher for `\b\d{4}-\d{2}-\d{2}\b` at this position. -/
def dateP2At (prev : Option Char) (s : List Char) : Option ℕ :=
  if atBoundary prev then
    match takeDigits 4 s with
    | some ('-' :: r1) =>
      match takeDigits 2 r1 with
      | some ('-' :: r2) =>
        match takeDigits 2 r2 with
        | some r3 => if closesBoundary r3 then some 10 else none
        | none => none
      | _ => none
    | _ => none
  else none

/-- Matcher for `\b\d{1,2}\s+\w{3}\s+\d{4}\b` at this position. -/
def dateP3At (prev : Option Char) (s : List Char) : Option ℕ :=
  if atBoundary prev then
    [2, 1].findSome? (fun k1 =>
      match takeDigits k1 s with
      | none => none
      | some r1 =>
        let w1 := (r1.takeWhile pyIsWs).length
        if w1 = 0 then none
        else
          let r2 := r1.drop w1
          let wd := r2.take 3
          if wd.length = 3 && wd.all isWord then
            let r3 := r2.drop 3
            let w2 := (r3.takeWhile pyIsWs).length
            if w2 = 0 then none
            else
              match takeDigits 4 (r3.drop w2) with
              | some r4 =>
                if closesBoundary r4 then some (k1 + w1 + 3 + w2 + 4) else none
              | none => none
          else none)
  else none

/-- `re.findall` of the three generic date patterns, concatenated in source
order (`dates_found`). -/
def datesFound (l : List Char) : List (List Char) :=
  scanTokens dateP1At none l ++ scanTokens dateP2At none l ++ scanTokens dateP3At none l

/-- `re.findall` of the amount pattern on a line. -/
def amountsFound (l : List Char) : List (List Char) :=
  scanTokens (fun _ s => amountMatchLen s) none l

/-- The loop body of `_parse_generic_statement` for one raw line: strip, skip
if empty, and produce a transaction exactly when both a date-shaped and an
amount-shaped substring occur; `description` is the whole stripped line and
the amount is the last `findall` match. -/
def parseGenericLine (line : String) : Option PyTx :=
  let l := pyStrip line.data
  if l.isEmpty then none
  else
    match datesFound l, amountsFound l with
    | d :: _, a :: as =>
      some { date := some ⟨d⟩, description := some ⟨l⟩,
             amount := some (.str ⟨(a :: as).getLast (List.cons_ne_nil a as)⟩),
             rawLine := some ⟨l⟩ }
    | _, _ => none

/-- `_parse_generic_statement` over a whole text. -/
def parseGenericStatement (text : String) : List PyTx :=
  (text.splitOn "\n").filterMap parseGenericLine

/-- Remove the first occurrence of `tok` from a list. -/
def removeFirstOcc (tok : List Char) : List Char → List Char
  | [] => []
  | c :: rest =>
    if tok.isPrefixOf (c :: rest) then (c :: rest).drop tok.length
    else c :: removeFirstOcc tok rest

/-- Modelled from the spec: the specified description of a generic-parser
transaction is "the full line with the matched amount token removed" (the
matched token being the last amount match of the line).  The code itself has
no such computation; this definition exists only to compare the spec's words
with the code's behaviour. -/
def specGenericDescription (line : String) : String :=
  let l := pyStrip line.data
  match (amountsFound l).getLast? with
  | some tok => ⟨removeFirstOcc tok l⟩
  | none => ⟨l⟩

/-! ### Date normalization (`_extract_month_year`)

The same function appears in `monthly_report_generator.py` and
`enhanced_monthly_report_generator.py`; both are embedded once here.
`datetime.strptime` is modelled by the directive regexes of CPython's
`_strptime` (`%m`, `%d`, exactly-four-digit `%Y`, exactly-two-digit `%y`
with the POSIX pivot 69) with full-consumption and calendar validation, the
first successful regex path being the one validated. -/

/-- `%m` directive alternatives, in regex preference order. -/
def altM (s : List Char) : List (ℕ × List Char) :=
  (match s with
   | '1' :: c :: r => if '0' ≤ c && c ≤ '2' then [(10 + digVal c, r)] else []
   | _ => []) ++
  (match s with
   | '0' :: c :: r => if '1' ≤ c && c ≤ '9' then [(digVal c, r)] else []
   | _ => []) ++
  (match s with
   | c :: r => if '1' ≤ c && c ≤ '9' then [(digVal c, r)] else []
   | [] => [])

/-- `%d` directive alternatives, in regex preference order. -/
def altD (s : List Char) : List (ℕ × List Char) :=
  (match s with
   | '3' :: c :: r => if c = '0' || c = '1' then [(30 + digVal c, r)] else []
   | _ => []) ++
  (match s with
   | c :: d :: r => if (c = '1' || c = '2') && isDig d then [(digVal c * 10 + digVal d, r)] else []
   | _ => []) ++
  (match s with
   | '0' :: c :: r => if '1' ≤ c && c ≤ '9' then [(digVal c, r)] else []
   | _ => []) ++
  (match s with
   | c :: r => if '1' ≤ c && c ≤ '9' then [(digVal c, r)] else []
   | [] => [])

/-- `%Y`: exactly four digits. -/
def altY4 (s : List Char) : List (ℕ × List Char) :=
  match takeDigits 4 s with
  | some r => [(toNatD (s.take 4), r)]
  | none => []

/-- `%y`: exactly two digits, then the POSIX pivot (0-68 are 2000s). -/
def altY2 (s : List Char) : List (ℕ × List Char) :=
  match takeDigits 2 s with
  | some r =>
    let v := toNatD (s.take 2)
    [(if v ≤ 68 then 2000 + v else 1900 + v, r)]
  | none => []

/-- A token of a `strptime` format string. -/
inductive FTok where
  | lit (c : Char)
  | fm | fd | fY | fy

/-- Partial date assignment built while matching a format. -/
structure PD where
  y : ℕ := 1900
  m : ℕ := 1
  d : ℕ := 1
deriving DecidableEq

/-- All matching paths of a format against the input, in the engine's
preference order (each yields the assignment and the unconsumed rest). -/
def runFmt : List FTok → PD → List Char → List (PD × List Char)
  | [], pd, s => [(pd, s)]
  | tok :: rest, pd, s =>
    match tok with
    | .lit c =>
      match s with
      | c2 :: r => if c2 = c then runFmt rest pd r else []
      | [] => []
    | .fm => (altM s).flatMap (fun vr => runFmt rest { pd with m := vr.1 } vr.2)
    | .fd => (altD s).flatMap (fun vr => runFmt rest { pd with d := vr.1 } vr.2)
    | .fY => (altY4 s).flatMap (fun vr => runFmt rest { pd with y := vr.1 } vr.2)
    | .fy => (altY2 s).flatMap (fun vr => runFmt rest { pd with y := vr.1 } vr.2)

/-- Gregorian leap year. -/
def isLeap (y : ℕ) : Bool := (y % 4 = 0 && y % 100 ≠ 0) || y % 400 = 0

/-- Days in a month. -/
def daysInMonth (y m : ℕ) : ℕ :=
  if m = 2 then (if isLeap y then 29 else 28)
  else if m = 4 || m = 6 || m = 9 || m = 11 then 30
  else 31

/-- `datetime(y, m, d)` constructor validity (`MINYEAR = 1`, `MAXYEAR = 9999`). -/
def validDate (y m d : ℕ) : Bool :=
  1 ≤ y && y ≤ 9999 && 1 ≤ m && m ≤ 12 && 1 ≤ d && d ≤ daysInMonth y m

/-- One `datetime.strptime` attempt: the first matching regex path must
consume the whole string and construct a valid date; any failure is the caught
`ValueError`. -/
def strptimeTry (fmt : List FTok) (s : List Char) : Option (ℕ × ℕ) :=
  match (runFmt fmt {} s).head? with
  | some (pd, []) => if validDate pd.y pd.m pd.d then some (pd.y, pd.m) else none
  | _ => none

/-- The seven `date_formats`, in source order. -/
def dateFormats : List (List FTok) :=
  [ [.fm, .lit '/', .fd, .lit '/', .fY],
    [.fm, .lit '-', .fd, .lit '-', .fY],
    [.fY, .lit '-', .fm, .lit '-', .fd],
    [.fd, .lit '/', .fm, .lit '/', .fY],
    [.fd, .lit '-', .fm, .lit '-', .fY],
    [.fm, .lit '/', .fd, .lit '/', .fy],
    [.fm, .lit '-', .fd, .lit '-', .fy] ]

/-- Match the captured, slash/dash-separated `(\d{k1}) (\d{k2}) (\d{k3})` at this position, returning the
three captured digit groups. -/
def fbGroupsAt (k1 k2 k3 : ℕ) (s : List Char) : Option (List Char × List Char × List Char) :=
  match takeDigits k1 s with
  | none => none
  | some r1 =>
    match r1 with
    | c :: r2 =>
      if isSep c then
        match takeDigits k2 r2 with
        | none => none
        | some r3 =>
          match r3 with
          | c2 :: r4 =>
            if isSep c2 then
              match takeDigits k3 r4 with
              | some _ => some (s.take k1, r2.take k2, r4.take k3)
              | none => none
            else none
          | [] => none
      else none
    | [] => none

/-- Leftmost search of one fallback pattern: try every start position, and at
each one the quantifier combinations in engine preference order. -/
def fbSearch (combos : List (ℕ × ℕ × ℕ)) (s : List Char) :
    Option (List Char × List Char × List Char) :=
  s.tails.findSome? (fun t => combos.findSome? (fun k => fbGroupsAt k.1 k.2.1 k.2.2 t))

/-- Quantifier combinations for `\d{1,2} sep \d{1,2} sep \d{4}`. -/
def combos114 : List (ℕ × ℕ × ℕ) := [(2,2,4),(2,1,4),(1,2,4),(1,1,4)]

/-- Quantifier combinations for `\d{1,2} sep \d{1,2} sep \d{2}`. -/
def combos112 : List (ℕ × ℕ × ℕ) := [(2,2,2),(2,1,2),(1,2,2),(1,1,2)]

/-- Quantifier combinations for `\d{4} sep \d{1,2} sep \d{1,2}`. -/
def combos411 : List (ℕ × ℕ × ℕ) := [(4,2,2),(4,2,1),(4,1,2),(4,1,1)]

/-- The `date_patterns` regex-extraction fallback: the three patterns in
source order, `re.search` each. -/
def fallbackGroups (s : List Char) : Option (List Char × List Char × List Char) :=
  match fbSearch combos114 s with
  | some g => some g
  | none =>
    match fbSearch combos112 s with
    | some g => some g
    | none => fbSearch combos411 s

/-- Year and month computed from the fallback groups: two-digit years pivot
at 50 (string concatenation `int('20' + g)` equals `2000 + value` since the
group has exactly two digits), and the first group is the month when it is a
plausible month, otherwise the second. -/
def fbCompute (g : List Char × List Char × List Char) : ℕ × ℕ :=
  let year :=
    if g.2.2.length = 2 then
      (if toNatD g.2.2 < 50 then 2000 + toNatD g.2.2 else 1900 + toNatD g.2.2)
    else toNatD g.2.2
  let month :=
    if g.1.length ≤ 2 && toNatD g.1 ≤ 12 then toNatD g.1 else toNatD g.2.1
  (year, month)

/-- `re.match(r'^\d{1,2}/\d{1,2}$', s)` (a `$` also matches just before one
trailing newline). -/
def isMMDD (s : List Char) : Bool :=
  let core := match s.getLast? with
    | some c => if c = '\n' then s.dropLast else s
    | none => s
  [2, 1].any (fun k1 =>
    match takeDigits k1 core with
    | some ('/' :: r1) =>
      [2, 1].any (fun k2 =>
        match takeDigits k2 r1 with
        | some [] => true
        | _ => false)
    | _ => false)

/-- `_extract_month_year` up to formatting: empty strings are falsy; a bare
`MM/DD` gets `/2025` appended; then the strict formats on the stripped
string, then the regex fallback on the unstripped one. -/
def extractYM (s : String) : Option (ℕ × ℕ) :=
  if s.data.isEmpty then none
  else
    let s1 := if isMMDD s.data then s.data ++ "/2025".data else s.data
    match dateFormats.findSome? (fun f => strptimeTry f (pyStrip s1)) with
    | some ym => some ym
    | none => (fallbackGroups s1).map fbCompute

/-- `YYYY-MM` formatting (`f"..{year:04d}-{month:02d}"`). -/
def formatYM (y m : ℕ) : String :=
  ⟨zeroPad 4 (natToChars y) ++ '-' :: zeroPad 2 (natToChars m)⟩

/-- `_extract_month_year`. -/
def extractMonthYear (s : String) : Option String :=
  (extractYM s).map (fun ym => formatYM ym.1 ym.2)

/-! ### Monthly aggregation (`organize_transactions_by_month` and the
month-tab ordering of `create_monthly_excel_report`) -/

/-- The grouping key of one transaction: its normalized month, or the
`Unknown` sentinel when normalization fails. -/
def monthKeyOf (t : PyTx) : String :=
  match extractMonthYear (t.date.getD "") with
  | some k => k
  | none => "Unknown"

/-- Append a transaction to its group (`monthly_data[month_year].append(...)`
on a `defaultdict(list)`), preserving dict insertion order: the first entry
with this key is extended, otherwise a new group is appended. -/
def addTo : List (String × List PyTx) → String → PyTx → List (String × List PyTx)
  | [], k, t => [(k, [t])]
  | g :: gs, k, t => if g.1 = k then (g.1, g.2 ++ [t]) :: gs else g :: addTo gs k t

/-- `organize_transactions_by_month`. -/
def organize (txs : List PyTx) : List (String × List PyTx) :=
  txs.foldl (fun acc t => addTo acc (monthKeyOf t) t) []

/-- The transactions of one group. -/
def groupOf (k : String) (m : List (String × List PyTx)) : List PyTx :=
  ((m.find? (fun g => g.1 = k)).map Prod.snd).getD []

/-- Python's sort key `lambda x: x if x != 'Unknown' else 'ZZZZ'`. -/
def pySortKey (x : String) : String := if x ≠ "Unknown" then x else "ZZZZ"

/-- `sorted_months`: the month keys sorted with the sentinel key. -/
def sortedMonths (txs : List PyTx) : List String :=
  ((organize txs).map Prod.fst).mergeSort (fun a b => decide (pySortKey a ≤ pySortKey b))

/-! ## Theorems -/

/-- Evaluation helper: `_clean_amount` on a string is the rational of its
parsed representation, defaulting to `0`. -/
theorem cleanAmount_str_eval (s : String) (r : Option (Bool × ℕ × ℕ × ℕ × ℤ))
    (h : parseFloatRep ⟨cleanCoreStr (pyStrip (s.data.filter (fun c => !(c = '$' || c = ','))))⟩ = r) :
    cleanAmount (.str s) = (r.map ratOfRep).getD 0 := by
  simp only [cleanAmount, cleanCore, parseFloat, h]

/-- Evaluation helper for the reader's `clean_amount`. -/
theorem cleanAmountR_eval (s : String) (r : Option (Bool × ℕ × ℕ × ℕ × ℤ))
    (h : parseFloatRep ⟨cleanCoreStr ((pyStrip s.data).filter (fun c => !(c = '$' || c = ',')))⟩ = r) :
    cleanAmountR s = (r.map ratOfRep).getD 0 := by
  simp only [cleanAmountR, cleanCore, parseFloat, h]

/-- C3: amount normalization maps each well-formed currency string to its
signed decimal value — both in the analyzer's `_clean_amount` and the
reader's `clean_amount` — and on every input whose final parse fails it
returns `0.0`; the functions are total (never raise). -/
theorem c3_amount_normalization :
    cleanAmount (.str "$1,234.56") = 1234.56 ∧
    cleanAmount (.str "(45.00)") = -45.00 ∧
    cleanAmount (.str "+12.50") = 12.50 ∧
    cleanAmount (.str "-3.20") = -3.20 ∧
    cleanAmountR "$1,234.56" = 1234.56 ∧
    cleanAmountR "(45.00)" = -45.00 ∧
    cleanAmountR "+12.50" = 12.50 ∧
    cleanAmountR "-3.20" = -3.20 ∧
    (∀ s : String,
      parseFloat ⟨cleanCoreStr (pyStrip (s.data.filter (fun c => !(c = '$' || c = ','))))⟩ = none →
      cleanAmount (.str s) = 0) ∧
    (∀ s : String,
      parseFloat ⟨cleanCoreStr ((pyStrip s.data).filter (fun c => !(c = '$' || c = ',')))⟩ = none →
      cleanAmountR s = 0) := by
  refine ⟨?_, ?_, ?_, ?_, ?_, ?_, ?_, ?_, ?_, ?_⟩
  · rw [cleanAmount_str_eval "$1,234.56" (some (false, 1234, 56, 2, 0)) (by decide)]
    norm_num [ratOfRep]
  · rw [cleanAmount_str_eval "(45.00)" (some (true, 45, 0, 2, 0)) (by decide)]
    norm_num [ratOfRep]
  · rw [cleanAmount_str_eval "+12.50" (some (false, 12, 50, 2, 0)) (by decide)]
    norm_num [ratOfRep]
  · rw [cleanAmount_str_eval "-3.20" (some (true, 3, 20, 2, 0)) (by decide)]
    norm_num [ratOfRep]
  · rw [cleanAmountR_eval "$1,234.56" (some (false, 1234, 56, 2, 0)) (by decide)]
    norm_num [ratOfRep]
  · rw [cleanAmountR_eval "(45.00)" (some (true, 45, 0, 2, 0)) (by decide)]
    norm_num [ratOfRep]
  · rw [cleanAmountR_eval "+12.50" (some (false, 12, 50, 2, 0)) (by decide)]
    norm_num [ratOfRep]
  · rw [cleanAmountR_eval "-3.20" (some (true, 3, 20, 2, 0)) (by decide)]
    norm_num [ratOfRep]
  · intro s h
    simp only [cleanAmount, cleanCore, h, Option.getD_none]
  · intro s h
    simp only [cleanAmountR, cleanCore, h, Option.getD_none]

/-- Witness for the parse-failure clauses of `c3_amount_normalization`, at the
unparseable input `"abc"`. -/
theorem c3_amount_normalization_witness :
    cleanAmount (.str "abc") = 0 ∧ cleanAmountR "abc" = 0 :=
  ⟨c3_amount_normalization.2.2.2.2.2.2.2.2.1 "abc" (by decide),
   c3_amount_normalization.2.2.2.2.2.2.2.2.2 "abc" (by decide)⟩

/-- C7: date normalization maps `01/15/2024`, `01-15-2024` and `2024-01-15`
to the month key `2024-01`, returns `none` on an unrecognized input such as
`N/A`, and is a total function of the input string (never raises: every
branch of the embedded `_extract_month_year` returns a value). -/
theorem c7_date_normalization :
    extractMonthYear "01/15/2024" = some "2024-01" ∧
    extractMonthYear "01-15-2024" = some "2024-01" ∧
    extractMonthYear "2024-01-15" = some "2024-01" ∧
    extractMonthYear "N/A" = none := by
  refine ⟨?_, ?_, ?_, ?_⟩ <;> decide

/-- C4 counterexample: the claim maps every two-digit year of 50 or more to
the 1900s and gives `"01/15/55" ↦ "1955-01"`; but `01/15/55` fully matches
the strict template `%m/%d/%y`, whose POSIX pivot maps 55 to 2055, so the
code yields `"2055-01"`. -/
theorem c4_two_digit_year_counterexample :
    extractMonthYear "01/15/55" = some "2055-01" ∧
    extractMonthYear "01/15/55" ≠ some "1955-01" := by
  refine ⟨?_, ?_⟩ <;> decide

/-- C4 (amended): a two-digit year is pivoted at 50 (below 50 to the 2000s,
50 and above to the 1900s) only in the regex-extraction fallback, reached
when no strict format template matches the whole string (e.g. an embedded
date like `ref 01/15/55 x` yields `1955-01`); a string fully matching a
two-digit-year template is parsed by `strptime`, which pivots at 69, so
`01/15/55` yields `2055-01` while `01/15/45` yields `2045-01`. -/
theorem c4_two_digit_year_amended :
    (∀ g1 g2 : List Char, ∀ v : Fin 100,
      (fbCompute (g1, g2, zeroPad 2 (natToChars (v : ℕ)))).1 =
        if (v : ℕ) < 50 then 2000 + (v : ℕ) else 1900 + (v : ℕ)) ∧
    extractMonthYear "ref 01/15/55 x" = some "1955-01" ∧
    extractMonthYear "01/15/45" = some "2045-01" ∧
    extractMonthYear "01/15/55" = some "2055-01" := by
  refine ⟨fun g1 g2 v => ?_, by decide, by decide, by decide⟩
  have : ∀ w : Fin 100,
      (if (zeroPad 2 (natToChars (w : ℕ))).length = 2 then
        (if toNatD (zeroPad 2 (natToChars (w : ℕ))) < 50 then
          2000 + toNatD (zeroPad 2 (natToChars (w : ℕ)))
         else 1900 + toNatD (zeroPad 2 (natToChars (w : ℕ))))
       else toNatD (zeroPad 2 (natToChars (w : ℕ)))) =
        if (w : ℕ) < 50 then 2000 + (w : ℕ) else 1900 + (w : ℕ) := by decide
  simpa [fbCompute] using this v

/-- C2 (amended): a stripped line yields a generic-parser transaction exactly
when it contains both a date-shaped and an amount-shaped substring; the last
amount match becomes the transaction's amount; and the description is the
full stripped line — the amount token is left in place, not removed. -/
theorem c2_generic_line_parsing (line : String) :
    ((parseGenericLine line).isSome ↔
      (datesFound (pyStrip line.data) ≠ [] ∧ amountsFound (pyStrip line.data) ≠ [])) ∧
    (∀ t, parseGenericLine line = some t →
      t.description = some ⟨pyStrip line.data⟩ ∧
      t.amount = ((amountsFound (pyStrip line.data)).getLast?).map (fun tok => PyVal.str ⟨tok⟩)) := by
  unfold parseGenericLine
  rcases hE : (pyStrip line.data).isEmpty with _ | _
  · simp only [hE, Bool.false_eq_true, if_false]
    rcases hd : datesFound (pyStrip line.data) with _ | ⟨d, ds⟩ <;>
      rcases ha : amountsFound (pyStrip line.data) with _ | ⟨a, as⟩ <;>
      simp [List.getLast?_eq_getLast]
  · have : pyStrip line.data = [] := List.isEmpty_iff.mp hE
    simp only [hE, if_true]
    constructor
    · simp only [this]
      constructor
      · intro h; exact absurd h (by simp)
      · rintro ⟨h1, _⟩; exact absurd rfl h1
    · intro t ht; exact absurd ht (by simp)

/-- Witness for `c2_generic_line_parsing` at a concrete line with four amount
matches; the last one (`5.75`) is taken and the description keeps the line. -/
theorem c2_generic_line_parsing_witness :
    ∃ t, parseGenericLine "01/15/2024 COFFEE 5.75" = some t ∧
      t.description = some "01/15/2024 COFFEE 5.75" ∧
      t.amount = some (.str "5.75") := by
  refine ⟨{ date := some "01/15/2024", description := some "01/15/2024 COFFEE 5.75",
            amount := some (.str "5.75"), rawLine := some "01/15/2024 COFFEE 5.75" }, ?_, ?_⟩
  · decide
  · have h := (c2_generic_line_parsing "01/15/2024 COFFEE 5.75").2
      { date := some "01/15/2024", description := some "01/15/2024 COFFEE 5.75",
        amount := some (.str "5.75"), rawLine := some "01/15/2024 COFFEE 5.75" }
      (by decide)
    refine ⟨h.1, ?_⟩
    rw [h.2]; decide

/-- C2 counterexample: on `01/15/2024 COFFEE 5.75` the parser's description
is the whole line, not the line with the matched amount token removed, so the
claim's description clause fails. -/
theorem c2_description_counterexample :
    (parseGenericLine "01/15/2024 COFFEE 5.75").map (fun t => t.description) =
      some (some "01/15/2024 COFFEE 5.75") ∧
    specGenericDescription "01/15/2024 COFFEE 5.75" = "01/15/2024 COFFEE " ∧
    ("01/15/2024 COFFEE 5.75" : String) ≠ specGenericDescription "01/15/2024 COFFEE 5.75" := by
  refine ⟨?_, ?_, ?_⟩ <;> decide

/-- `hasSub` agrees with list-infix containment. -/
theorem hasSub_iff {n h : List Char} : hasSub n h = true ↔ n <:+: h := by
  simp only [hasSub, List.any_eq_true, List.mem_tails, List.isPrefixOf_iff_prefix]
  constructor
  · rintro ⟨t, hsuf, hpre⟩
    exact List.infix_iff_prefix_suffix.mpr ⟨t, hpre, hsuf⟩
  · intro hinf
    obtain ⟨t, hpre, hsuf⟩ := List.infix_iff_prefix_suffix.mp hinf
    exact ⟨t, hsuf, hpre⟩

/-- An infix whose first character survives `dropWhile` stays an infix. -/
theorem infix_dropWhile {p : Char → Bool} {a : Char} {as l : List Char}
    (ha : p a = false) (h : (a :: as) <:+: l) : (a :: as) <:+: l.dropWhile p := by
  obtain ⟨s, t, rfl⟩ := h
  rw [List.append_assoc, List.dropWhile_append]
  cases hs : (s.dropWhile p).isEmpty with
  | true =>
    rw [if_pos (by simp [hs]), List.cons_append, List.dropWhile_cons, ha]
    exact ⟨[], t, by simp⟩
  | false =>
    rw [if_neg (by simp [hs])]
    exact ⟨s.dropWhile p, t, by simp⟩

/-- An infix with non-whitespace first and last characters survives
`str.strip()`. -/
theorem infix_pyStrip {n l : List Char}
    (hh : ∀ c, n.head? = some c → pyIsWs c = false)
    (hl : ∀ c, n.getLast? = some c → pyIsWs c = false)
    (h : n <:+: l) : n <:+: pyStrip l := by
  cases n with
  | nil => exact List.nil_infix
  | cons a as =>
    have ha := hh a rfl
    unfold pyStrip
    have h1 : (a :: as) <:+: l.dropWhile pyIsWs := infix_dropWhile ha h
    have h2 : (a :: as).reverse <:+: (l.dropWhile pyIsWs).reverse :=
      List.reverse_infix.mpr h1
    obtain ⟨b, bs, hb⟩ : ∃ b bs, (a :: as).reverse = b :: bs := by
      cases hrev : (a :: as).reverse with
      | nil => simp at hrev
      | cons b bs => exact ⟨b, bs, rfl⟩
    have hgl : (a :: as).getLast? = some b := by
      rw [← List.head?_reverse, hb]; rfl
    have hbw := hl b hgl
    rw [hb] at h2
    have h3 := infix_dropWhile hbw h2
    refine List.reverse_infix.mp ?_
    rw [List.reverse_reverse, hb]
    exact h3

/-- A literal in the head alternative of a pattern fires the search whenever
it occurs in the input. -/
theorem searchB_alt_lit {cs : List Char} {q : Pat} {d : List Char}
    (h : hasSub cs d = true) : (Pat.alt (.lit cs) q).searchB d = true := by
  simp only [hasSub, List.any_eq_true] at h
  obtain ⟨t, ht, hpre⟩ := h
  simp only [Pat.searchB, List.any_eq_true]
  refine ⟨t, ht, ?_⟩
  simp [Pat.matchEnds, hpre]

/-- `_combine_analyses`: a pattern hit with confidence at least 0.8 wins. -/
theorem combine_pattern_override (bt : String) (bc : ℚ) (pt pr : String) (pc : ℚ)
    (kR : Option String × ℚ × String) (amt : ℚ) (h : pc ≥ 0.8) :
    combineAnalyses bt bc (some pt, pc, pr) kR amt = (pt, pc, pr) := by
  simp [combineAnalyses, h]

/-- `_analyze_patterns` returns the first income pattern's verdict as soon as
that pattern's search fires. -/
theorem analyzePatterns_first_income {d : List Char}
    (h : (incomePatterns.headI).1.searchB d = true) :
    analyzePatterns d =
      (some "income", 0.9, "Income pattern: " ++ (incomePatterns.headI).2) := by
  unfold analyzePatterns
  rw [show incomePatterns.find? (fun pr => pr.1.searchB d) = some incomePatterns.headI by
    rw [show incomePatterns = incomePatterns.headI :: incomePatterns.tail from rfl]
    exact List.find?_cons_of_pos _ (by simpa using h)]

/-- C1: any transaction whose description contains `direct deposit payroll`
(up to letter case) classifies as income with confidence at least 0.9,
whatever its amount — the first strong income regex (`direct dep|...`)
fires and overrides the amount-sign baseline. -/
theorem c1_direct_deposit_payroll_income (t : PyTx)
    (h : hasSub "direct deposit payroll".data (pyLower (t.description.getD "").data) = true) :
    (analyzeTransaction t).type = "income" ∧
      (0.9 : ℚ) ≤ (analyzeTransaction t).confidence := by
  have hinf : "direct deposit payroll".data <:+: pyLower (t.description.getD "").data :=
    hasSub_iff.mp h
  have hstrip : "direct deposit payroll".data <:+:
      pyStrip (pyLower (t.description.getD "").data) :=
    infix_pyStrip (by decide) (by decide) hinf
  have hdd : hasSub "direct dep".data (pyStrip (pyLower (t.description.getD "").data)) = true :=
    hasSub_iff.mpr (((by decide : "direct dep".data <+: "direct deposit payroll".data)).isInfix.trans
      hstrip)
  have hfire : (incomePatterns.headI).1.searchB
      (pyStrip (pyLower (t.description.getD "").data)) = true := by
    have : (incomePatterns.headI).1 =
        Pat.alt (.lit "direct dep".data)
          (Pat.alt (.seq (litP "dd") (plusCls pyIsWs)) (Pat.alt (litP "payroll") (litP "salary"))) := by
      rfl
    rw [this]
    exact searchB_alt_lit hdd
  have hpat := analyzePatterns_first_income hfire
  simp only [analyzeTransaction]
  rw [hpat, combine_pattern_override _ _ _ _ _ _ _ (by norm_num)]
  exact ⟨rfl, le_refl _⟩

/-- Witness for `c1_direct_deposit_payroll_income`: an upper-case payroll
deposit with a negative amount. -/
theorem c1_direct_deposit_payroll_income_witness :
    (analyzeTransaction { description := some "DIRECT DEPOSIT PAYROLL", amount := some (.str "-2500.00") }).type = "income" ∧
    (0.9 : ℚ) ≤ (analyzeTransaction { description := some "DIRECT DEPOSIT PAYROLL", amount := some (.str "-2500.00") }).confidence :=
  c1_direct_deposit_payroll_income _ (by decide)

/-- C8: when no strong regex fires (the pattern stage returned its no-match
value) and the keyword stage names the opposite type with confidence in
[0.4, 0.6), `_combine_analyses` keeps the baseline type, reduces the baseline
confidence by 0.2 with a floor of 0.3, and records the conflicting keyword
evidence in the reason. -/
theorem c8_weak_conflicting_keywords (bt : String) (bc : ℚ) (k kr : String) (kc amt : ℚ)
    (hk : k ≠ bt) (h1 : 0.4 ≤ kc) (h2 : kc < 0.6) :
    combineAnalyses bt bc (none, 0, "No pattern match") (some k, kc, kr) amt =
      (bt, max 0.3 (bc - 0.2), "Amount-based (" ++ bt ++ ") but " ++ kr) := by
  simp only [combineAnalyses]
  rw [if_neg (not_le.mpr h2), if_pos ⟨hk, h1⟩]

/-- Witness for `c8_weak_conflicting_keywords`: a negative-amount expense
baseline against weak income keyword evidence at confidence 0.5. -/
theorem c8_weak_conflicting_keywords_witness :
    combineAnalyses "expense" 0.6 (none, 0, "No pattern match")
        (some "income", 0.5, "Keywords: income:deposit") (-12.5) =
      ("expense", max 0.3 ((0.6 : ℚ) - 0.2),
       "Amount-based (expense) but Keywords: income:deposit") :=
  c8_weak_conflicting_keywords "expense" 0.6 "income" "Keywords: income:deposit" 0.5 (-12.5)
    (by decide) (by norm_num) (by norm_num)

/-- The keyword stage's confidence always lies in [0, 0.8]. -/
theorem analyzeKeywords_conf_bounds (d : List Char) :
    0 ≤ (analyzeKeywords d).2.1 ∧ (analyzeKeywords d).2.1 ≤ 0.8 := by
  simp only [analyzeKeywords]
  split_ifs <;>
    refine ⟨?_, ?_⟩ <;>
    first
      | exact le_min (by norm_num) (by positivity)
      | exact min_le_left _ _
      | exact le_inf (by norm_num) (by positivity)
      | exact inf_le_left
      | norm_num

/-- The pattern stage's confidence is 0.9 on a hit and 0 otherwise. -/
theorem analyzePatterns_conf_cases (d : List Char) :
    (analyzePatterns d).2.1 = 0.9 ∨ (analyzePatterns d).2.1 = 0 := by
  unfold analyzePatterns
  cases h1 : incomePatterns.find? (fun pr => pr.1.searchB d) with
  | some p => simp [h1]
  | none =>
    cases h2 : expensePatterns.find? (fun pr => pr.1.searchB d) with
    | some p => simp [h1, h2]
    | none => simp [h1, h2]

/-- `_combine_analyses` stays within [0, 1] whenever its inputs come from the
stages' ranges. -/
theorem combine_conf_bounds (bt : String) (bc : ℚ)
    (pR kR : Option String × ℚ × String) (amt : ℚ)
    (hb : bc = 0.6 ∨ bc = 0.3) (hp : pR.2.1 = 0.9 ∨ pR.2.1 = 0)
    (hk : 0 ≤ kR.2.1 ∧ kR.2.1 ≤ 0.8) :
    0 ≤ (combineAnalyses bt bc pR kR amt).2.1 ∧
      (combineAnalyses bt bc pR kR amt).2.1 ≤ 1 := by
  obtain ⟨pt, pc, pr⟩ := pR
  obtain ⟨kt, kc, kr⟩ := kR
  simp only at hp hk
  unfold combineAnalyses
  rcases pt with _ | pt <;> rcases kt with _ | kt <;>
    simp only <;> (try split_ifs) <;>
    refine ⟨?_, ?_⟩ <;>
    first
      | (rcases hb with hb | hb <;> rw [hb] <;> norm_num)
      | (rcases hp with hp | hp <;> rw [hp] <;> norm_num)
      | (rcases hk with ⟨hk1, hk2⟩; linarith)

/-- Each transaction in `classify_transactions` output carries the confidence
of `analyze_transaction` on some input transaction. -/
theorem classifyFrom_conf (fresh : ℕ) (txs : List PyTx) (r : PyTx)
    (hr : r ∈ classifyFrom fresh txs) :
    ∃ t ∈ txs, r.typeConfidence = some (analyzeTransaction t).confidence := by
  induction txs generalizing fresh with
  | nil => simp [classifyFrom] at hr
  | cons t ts ih =>
    simp only [classifyFrom, List.mem_cons] at hr
    rcases hr with rfl | hr
    · exact ⟨t, List.mem_cons_self t ts, rfl⟩
    · obtain ⟨t', ht', he⟩ := ih _ hr
      exact ⟨t', List.mem_cons_of_mem _ ht', he⟩

/-- C5: the classifier's confidence lies in [0, 1] for every transaction, for
any input — both for a single `analyze_transaction` call and for every
`type_confidence` field produced by `classify_transactions`. -/
theorem c5_confidence_bounds :
    (∀ t : PyTx, 0 ≤ (analyzeTransaction t).confidence ∧
      (analyzeTransaction t).confidence ≤ 1) ∧
    (∀ txs : List PyTx, ∀ r ∈ classifyTransactions txs,
      ∃ c, r.typeConfidence = some c ∧ 0 ≤ c ∧ c ≤ 1) := by
  have hsingle : ∀ t : PyTx, 0 ≤ (analyzeTransaction t).confidence ∧
      (analyzeTransaction t).confidence ≤ 1 := by
    intro t
    simp only [analyzeTransaction]
    apply combine_conf_bounds
    · split_ifs <;> simp
    · exact analyzePatterns_conf_cases _
    · exact analyzeKeywords_conf_bounds _
  refine ⟨hsingle, fun txs r hr => ?_⟩
  obtain ⟨t, _, he⟩ := classifyFrom_conf _ _ _ hr
  exact ⟨(analyzeTransaction t).confidence, he, hsingle t⟩

/-- Witness for `c5_confidence_bounds` on a concrete batch. -/
theorem c5_confidence_bounds_witness :
    ∃ c, ((classifyTransactions
        [({ description := some "ATM WITHDRAWAL", amount := some (.str "-100.00") } : PyTx)]).head
          (by simp [classifyTransactions, classifyFrom])).typeConfidence
        = some c ∧ 0 ≤ c ∧ c ≤ 1 :=
  c5_confidence_bounds.2 _ _ (List.head_mem _)

/-- `find_longest_match` against an empty `b` finds nothing. -/
theorem findLongestMatch_nil (a : List Char) (alo ahi blo bhi : ℕ) :
    findLongestMatch a [] alo ahi blo bhi = (alo, blo, 0) := by
  unfold findLongestMatch
  have hgen : ∀ is : List ℕ,
      (is.foldl (fun (st : List (ℕ × ℕ) × (ℕ × ℕ × ℕ)) i =>
        match a.get? i with
        | some c => flmRow i (occPositions [] blo bhi c) st.1 st.2
        | none => st) ([], (alo, blo, 0))) = ([], (alo, blo, 0)) := by
    intro is
    induction is with
    | nil => rfl
    | cons i is ih =>
      rw [List.foldl_cons]
      have hstep : (match a.get? i with
          | some c => flmRow i (occPositions [] blo bhi c) ([] : List (ℕ × ℕ)) (alo, blo, 0)
          | none => (([] : List (ℕ × ℕ)), (alo, blo, 0))) = ([], (alo, blo, 0)) := by
        cases a.get? i <;> rfl
      rw [hstep]
      exact ih
  rw [hgen]

/-- The matching-character count against an empty string is zero. -/
theorem smMatches_nil (a : List Char) : smMatches a [] = 0 := by
  unfold smMatches
  cases h : a.length + [].length + 1 with
  | zero => rfl
  | succ n =>
    unfold smMatchesRec
    rw [findLongestMatch_nil]
    rfl

/-- `ratio()` against an empty string is 1 on empty input and 0 otherwise. -/
theorem smRatio_nil (a : List Char) :
    smRatio a [] = if a.length = 0 then 1 else 0 := by
  unfold smRatio
  rw [smMatches_nil]
  simp

/-- A fold that fixes its accumulator on every element of the list. -/
theorem foldl_fixed {α β : Type} (f : β → α → β) (b : β) (l : List α)
    (h : ∀ x ∈ l, f b x = b) : l.foldl f b = b := by
  induction l with
  | nil => rfl
  | cons x xs ih =>
    rw [List.foldl_cons, h x (List.mem_cons_self x xs)]
    exact ih (fun y hy => h y (List.mem_cons_of_mem _ hy))

/-- The fuzzy tier never fires on an empty description with the default
table: every similarity is 0. -/
theorem fuzzyMatch_default_nil : fuzzyMatch defaultKeywords [] = none := by
  have hkw : ∀ (cat : String) (k : String), k.data ≠ [] →
      (fun (b : Option String × ℚ) (kw : String) =>
        let sim0 := smRatio (pyLower kw.data) []
        let sim := if hasSub (pyLower kw.data) [] then max sim0 0.9 else sim0
        if sim > 0.8 ∧ sim > b.2 then (some cat, sim) else b) (none, 0) k = (none, 0) := by
    intro cat k hk
    have hlen : (pyLower k.data).length ≠ 0 := by
      rw [pyLower, List.length_map]
      exact fun h0 => hk (List.length_eq_zero.mp h0)
    have hsub : hasSub (pyLower k.data) [] = false := by
      cases hpl : pyLower k.data with
      | nil => exact absurd (by simp [hpl]) hlen
      | cons c cs => simp [hasSub, List.isPrefixOf]
    have hsim : smRatio (pyLower k.data) [] = 0 := by
      rw [smRatio_nil, if_neg hlen]
    simp only [hsub, Bool.false_eq_true, if_false, hsim]
    rw [if_neg (by norm_num)]
  unfold fuzzyMatch defaultKeywords
  rw [foldl_fixed]
  intro cat hcat
  fin_cases hcat <;>
    (refine foldl_fixed _ _ _ ?_
     intro k hk
     fin_cases hk <;> exact hkw _ _ (by decide))

/-- `match_transaction` with the default table matches nothing on an empty
description, whatever the amount. -/
theorem matchTransaction_default_empty (a : ℚ) :
    matchTransaction defaultKeywords "" a = none := by
  have hd : pyStrip (pyLower ("" : String).data) = ([] : List Char) := rfl
  simp only [matchTransaction, hd]
  rw [show exactMatch defaultKeywords [] = none from by decide, fuzzyMatch_default_nil,
    show regexMatch defaultKeywords [] = none from by decide]

/-- The amount-sign baseline at amount 0. -/
theorem base_zero :
    (if (0 : ℚ) > 0 then (("income", (0.6 : ℚ)) : String × ℚ)
     else if (0 : ℚ) < 0 then ("expense", 0.6) else ("expense", 0.3)) = ("expense", 0.3) := by
  norm_num

/-- `:.2f` formatting of zero. -/
theorem fmt2_zero : fmt2 0 = "0.00" := by
  have h1 : cents |(0 : ℚ)| = 0 := by norm_num [cents]
  have h2 : ¬ ((0 : ℚ) < 0) := by norm_num
  simp only [fmt2, h1, if_neg h2]
  decide

/-- `analyze_transaction` on an empty description and zero amount: the weak
expense default. -/
theorem analyze_empty_zero :
    analyzeTransaction { description := some "", amount := some (.num 0) } =
      ⟨"expense", 0.3, "Amount-based classification ($0.00)"⟩ := by
  simp only [analyzeTransaction]
  rw [show cleanAmount ((some (PyVal.num 0)).getD (.num 0)) = 0 from rfl, base_zero]
  rw [show analyzePatterns (pyStrip (pyLower ((some ("" : String)).getD "").data)) =
      (none, 0, "No pattern match") from rfl]
  rw [show analyzeKeywords (pyStrip (pyLower ((some ("" : String)).getD "").data)) =
      (none, 0, "No keyword match") from rfl]
  rw [show combineAnalyses "expense" 0.3 (none, 0, "No pattern match")
      (none, 0, "No keyword match") 0 =
      ("expense", 0.3, "Amount-based classification ($" ++ fmt2 0 ++ ")") from rfl]
  rw [fmt2_zero]
  rfl

/-- C10: degenerate records never break the pipeline — a missing description
is read as the empty string, a missing or unparseable amount as 0, the
classifier still returns a result (the weak expense default when both are
missing), and batch categorization assigns `Uncategorized` (with the default
keyword table) instead of raising. -/
theorem c10_degenerate_records :
    (∀ t : PyTx, t.description = none →
      analyzeTransaction t = analyzeTransaction { t with description := some "" }) ∧
    (∀ t : PyTx, t.amount = none →
      analyzeTransaction t = analyzeTransaction { t with amount := some (.num 0) }) ∧
    (∀ t : PyTx, ∀ s : String, t.amount = some (.str s) →
      parseFloat ⟨cleanCoreStr (pyStrip (s.data.filter (fun c => !(c = '$' || c = ','))))⟩ = none →
      analyzeTransaction t = analyzeTransaction { t with amount := some (.num 0) }) ∧
    (∀ t : PyTx, t.description = none → t.amount = none →
      analyzeTransaction t = ⟨"expense", 0.3, "Amount-based classification ($0.00)"⟩) ∧
    (∀ t : PyTx, t.description = none →
      (batchCategorize defaultKeywords [t]).map (fun r => r.category) =
        [some "Uncategorized"]) := by
  refine ⟨?_, ?_, ?_, ?_, ?_⟩
  · intro t h
    simp only [analyzeTransaction, h, Option.getD_none, Option.getD_some]
  · intro t h
    simp only [analyzeTransaction, h, Option.getD_none, Option.getD_some]
  · intro t s h hp
    simp only [analyzeTransaction, h]
    rw [show cleanAmount ((some (PyVal.str s)).getD (.num 0)) = cleanAmount (.str s) from rfl]
    rw [show cleanAmount ((some (PyVal.num 0)).getD (.num 0)) = 0 from rfl]
    rw [show cleanAmount (.str s) =
      (parseFloat ⟨cleanCoreStr (pyStrip (s.data.filter (fun c => !(c = '$' || c = ','))))⟩).getD 0
      from rfl, hp]
    rfl
  · intro t h1 h2
    have he : analyzeTransaction t =
        analyzeTransaction { description := some "", amount := some (.num 0) } := by
      simp only [analyzeTransaction, h1, h2, Option.getD_none, Option.getD_some]
    rw [he, analyze_empty_zero]
  · intro t h
    simp only [batchCategorize, categorizeFrom, List.map, h]
    rw [show (((none : Option String)).getD "") = "" from rfl, matchTransaction_default_empty]
    rfl

/-- Witness for `c10_degenerate_records` at an empty record and at a record
with an unparseable amount. -/
theorem c10_degenerate_records_witness :
    analyzeTransaction ({} : PyTx) = ⟨"expense", 0.3, "Amount-based classification ($0.00)"⟩ ∧
    analyzeTransaction { description := some "x", amount := some (.str "N/A") } =
      analyzeTransaction { description := some "x", amount := some (.num 0) } ∧
    (batchCategorize defaultKeywords [({} : PyTx)]).map (fun r => r.category) =
      [some "Uncategorized"] :=
  ⟨c10_degenerate_records.2.2.2.1 {} rfl rfl,
   c10_degenerate_records.2.2.1 _ "N/A" rfl (by decide),
   c10_degenerate_records.2.2.2.2 {} rfl⟩

/-- Every transaction's id is bounded by the batch maximum. -/
theorem maxId_ge {t : PyTx} {txs : List PyTx} (h : t ∈ txs) : t.objId ≤ maxId txs := by
  induction txs with
  | nil => simp at h
  | cons x xs ih =>
    rcases List.mem_cons.mp h with rfl | h'
    · exact le_max_left _ _
    · exact (ih h').trans (le_max_right _ _)

/-- `batch_categorize` preserves the batch length. -/
theorem categorizeFrom_length (tbl : KwTable) (f : ℕ) (txs : List PyTx) :
    (categorizeFrom tbl f txs).length = txs.length := by
  induction txs generalizing f with
  | nil => rfl
  | cons t ts ih => simp [categorizeFrom, ih]

/-- Element-wise description of `batch_categorize`: position `i` is a copy of
the input at `i` with a fresh id and the category set. -/
theorem categorizeFrom_get (tbl : KwTable) (f : ℕ) (txs : List PyTx) (i : ℕ)
    (hi : i < txs.length) (ho : i < (categorizeFrom tbl f txs).length) :
    (categorizeFrom tbl f txs).get ⟨i, ho⟩ =
      { txs.get ⟨i, hi⟩ with
        objId := f + i,
        category := some ((matchTransaction tbl ((txs.get ⟨i, hi⟩).description.getD "")
          (batchAmount ((txs.get ⟨i, hi⟩).amount.getD (.num 0)))).getD "Uncategorized") } := by
  induction txs generalizing f i with
  | nil => simp at hi
  | cons t ts ih =>
    cases i with
    | zero => simp [categorizeFrom]
    | succ j =>
      have hj : j < ts.length := by simpa using hi
      have hoj : j < (categorizeFrom tbl (f + 1) ts).length := by
        rw [categorizeFrom_length]; exact hj
      have := ih (f + 1) j hj hoj
      simp only [categorizeFrom, List.get_cons_succ]
      rw [this]
      have : f + 1 + j = f + (j + 1) := by omega
      rw [this]

/-- `classify_transactions` preserves the batch length. -/
theorem classifyFrom_length (f : ℕ) (txs : List PyTx) :
    (classifyFrom f txs).length = txs.length := by
  induction txs generalizing f with
  | nil => rfl
  | cons t ts ih => simp [classifyFrom, ih]

/-- Element-wise description of `classify_transactions`: position `i` is a
copy of the input at `i` with a fresh id and the three type fields set. -/
theorem classifyFrom_get (f : ℕ) (txs : List PyTx) (i : ℕ)
    (hi : i < txs.length) (ho : i < (classifyFrom f txs).length) :
    (classifyFrom f txs).get ⟨i, ho⟩ =
      { txs.get ⟨i, hi⟩ with
        objId := f + i,
        transactionType := some (analyzeTransaction (txs.get ⟨i, hi⟩)).type,
        typeConfidence := some (analyzeTransaction (txs.get ⟨i, hi⟩)).confidence,
        typeReason := some (analyzeTransaction (txs.get ⟨i, hi⟩)).reason } := by
  induction txs generalizing f i with
  | nil => simp at hi
  | cons t ts ih =>
    cases i with
    | zero => simp [classifyFrom]
    | succ j =>
      have hj : j < ts.length := by simpa using hi
      have hoj : j < (classifyFrom (f + 1) ts).length := by
        rw [classifyFrom_length]; exact hj
      have := ih (f + 1) j hj hoj
      simp only [classifyFrom, List.get_cons_succ]
      rw [this]
      have : f + 1 + j = f + (j + 1) := by omega
      rw [this]

/-- C9 (amended): the categorization and classification stages preserve the
values of `date`, `description`, `amount` and `source_file` at every position
and add `category`, `transaction_type`, `type_confidence` and `type_reason`;
but each stage replaces the record with an updated shallow copy (a fresh
object), rather than enriching it in place. -/
theorem c9_enrichment_frame (tbl : KwTable) (txs : List PyTx) (i : ℕ)
    (hi : i < txs.length)
    (ho : i < (classifyTransactions (batchCategorize tbl txs)).length) :
    ((classifyTransactions (batchCategorize tbl txs)).get ⟨i, ho⟩).date
        = (txs.get ⟨i, hi⟩).date ∧
    ((classifyTransactions (batchCategorize tbl txs)).get ⟨i, ho⟩).description
        = (txs.get ⟨i, hi⟩).description ∧
    ((classifyTransactions (batchCategorize tbl txs)).get ⟨i, ho⟩).amount
        = (txs.get ⟨i, hi⟩).amount ∧
    ((classifyTransactions (batchCategorize tbl txs)).get ⟨i, ho⟩).sourceFile
        = (txs.get ⟨i, hi⟩).sourceFile ∧
    ((classifyTransactions (batchCategorize tbl txs)).get ⟨i, ho⟩).category.isSome ∧
    ((classifyTransactions (batchCategorize tbl txs)).get ⟨i, ho⟩).transactionType.isSome ∧
    ((classifyTransactions (batchCategorize tbl txs)).get ⟨i, ho⟩).typeConfidence.isSome ∧
    ((classifyTransactions (batchCategorize tbl txs)).get ⟨i, ho⟩).typeReason.isSome ∧
    ((classifyTransactions (batchCategorize tbl txs)).get ⟨i, ho⟩).objId
        ≠ (txs.get ⟨i, hi⟩).objId := by
  have hbi : i < (batchCategorize tbl txs).length := by
    rw [batchCategorize, categorizeFrom_length]; exact hi
  have hB : (batchCategorize tbl txs).get ⟨i, hbi⟩ =
      { txs.get ⟨i, hi⟩ with
        objId := maxId txs + 1 + i,
        category := some ((matchTransaction tbl ((txs.get ⟨i, hi⟩).description.getD "")
          (batchAmount ((txs.get ⟨i, hi⟩).amount.getD (.num 0)))).getD "Uncategorized") } :=
    categorizeFrom_get tbl (maxId txs + 1) txs i hi hbi
  have hC : (classifyTransactions (batchCategorize tbl txs)).get ⟨i, ho⟩ =
      { (batchCategorize tbl txs).get ⟨i, hbi⟩ with
        objId := maxId (batchCategorize tbl txs) + 1 + i,
        transactionType := some (analyzeTransaction ((batchCategorize tbl txs).get ⟨i, hbi⟩)).type,
        typeConfidence := some (analyzeTransaction ((batchCategorize tbl txs).get ⟨i, hbi⟩)).confidence,
        typeReason := some (analyzeTransaction ((batchCategorize tbl txs).get ⟨i, hbi⟩)).reason } :=
    classifyFrom_get (maxId (batchCategorize tbl txs) + 1) (batchCategorize tbl txs) i hbi ho
  have h1 : (txs.get ⟨i, hi⟩).objId ≤ maxId txs := maxId_ge (txs.get_mem i hi)
  have h2 : maxId txs + 1 + i ≤ maxId (batchCategorize tbl txs) := by
    have hmem := (batchCategorize tbl txs).get_mem i hbi
    have hle := maxId_ge hmem
    rw [hB] at hle
    exact hle
  rw [hC, hB]
  refine ⟨rfl, rfl, rfl, rfl, rfl, rfl, rfl, rfl, ?_⟩
  simp only []
  omega

/-- Witness for `c9_enrichment_frame` on a singleton batch. -/
theorem c9_enrichment_frame_witness :
    ((classifyTransactions (batchCategorize defaultKeywords [({} : PyTx)])).get
        ⟨0, by decide⟩).category.isSome ∧
    ((classifyTransactions (batchCategorize defaultKeywords [({} : PyTx)])).get
        ⟨0, by decide⟩).objId ≠ (([({} : PyTx)]).get ⟨0, by decide⟩).objId := by
  have h := c9_enrichment_frame defaultKeywords [({} : PyTx)] 0 (by decide) (by decide)
  exact ⟨h.2.2.2.2.1, h.2.2.2.2.2.2.2.2⟩

/-- C9 counterexample: the claim's "enriched in place (not replaced by a new
record)" fails — both stages copy the dict (`transaction.copy()`), so the
produced record is a new object: its identity differs from the input's. -/
theorem c9_in_place_counterexample :
    ((batchCategorize defaultKeywords [({} : PyTx)]).map (fun r => r.objId)) = [1] ∧
    ((classifyTransactions [({} : PyTx)]).map (fun r => r.objId)) = [1] ∧
    ({} : PyTx).objId = 0 := by
  refine ⟨?_, ?_, rfl⟩ <;> rfl

/-- Every character printed for a natural number is a decimal digit. -/
theorem isDig_digChar (n : ℕ) : isDig (digChar n) = true := by
  have h10 : n % 10 < 10 := Nat.mod_lt _ (by norm_num)
  unfold digChar
  set k := n % 10 with hk
  interval_cases k <;> decide

/-- All characters of `natToCharsF` are digits. -/
theorem natToCharsF_digits (fuel : ℕ) : ∀ n : ℕ, ∀ c ∈ natToCharsF fuel n, isDig c = true := by
  induction fuel with
  | zero => intro n c hc; simp [natToCharsF] at hc
  | succ f ih =>
    intro n c hc
    unfold natToCharsF at hc
    by_cases h : n < 10
    · rw [if_pos h] at hc
      rw [List.mem_singleton.mp hc]
      exact isDig_digChar n
    · rw [if_neg h] at hc
      rcases List.mem_append.mp hc with hc | hc
      · exact ih _ c hc
      · rw [List.mem_singleton.mp hc]
        exact isDig_digChar (n % 10)

/-- `natToChars` never prints the empty string. -/
theorem natToChars_ne_nil (n : ℕ) : natToChars n ≠ [] := by
  unfold natToChars natToCharsF
  by_cases h : n < 10 <;> simp [h]

/-- Every month key starts with a decimal digit. -/
theorem formatYM_head_digit (y m : ℕ) :
    ∃ c cs, (formatYM y m).data = c :: cs ∧ isDig c = true := by
  have hdata : (formatYM y m).data =
      List.replicate (4 - (natToChars y).length) '0' ++ natToChars y ++
        '-' :: (List.replicate (2 - (natToChars m).length) '0' ++ natToChars m) := by
    simp [formatYM, zeroPad]
  cases h4 : List.replicate (4 - (natToChars y).length) '0' with
  | nil =>
    cases hn : natToChars y with
    | nil => exact absurd hn (natToChars_ne_nil y)
    | cons c cs =>
      refine ⟨c, cs ++ '-' :: (List.replicate (2 - (natToChars m).length) '0' ++ natToChars m),
        ?_, ?_⟩
      · rw [hdata, h4, hn]; simp
      · refine natToCharsF_digits (y + 1) y c ?_
        rw [show natToCharsF (y + 1) y = natToChars y from rfl, hn]
        exact List.mem_cons_self _ _
  | cons c cs =>
    have hc0 : c = '0' := List.eq_of_mem_replicate (h4 ▸ List.mem_cons_self c cs)
    refine ⟨c, cs ++ natToChars y ++
      '-' :: (List.replicate (2 - (natToChars m).length) '0' ++ natToChars m),
      ?_, by rw [hc0]; decide⟩
    rw [hdata, h4]; simp

/-- A month key sorts strictly below the sentinel key `ZZZZ`. -/
theorem formatYM_lt_ZZZZ (y m : ℕ) : formatYM y m < "ZZZZ" := by
  obtain ⟨c, cs, hdata, hdig⟩ := formatYM_head_digit y m
  have h9 : c ≤ '9' := by
    have h' := hdig
    simp [isDig] at h'
    exact h'.2
  have hcz : c < 'Z' := lt_of_le_of_lt h9 (by decide)
  refine String.lt_iff_toList_lt.mpr ?_
  have hl : (formatYM y m).toList = c :: cs := hdata
  rw [hl, show ("ZZZZ" : String).toList = 'Z' :: "ZZZ".toList from rfl]
  exact List.Lex.rel hcz

/-- A month key is never the `Unknown` sentinel. -/
theorem formatYM_ne_Unknown (y m : ℕ) : formatYM y m ≠ "Unknown" := by
  obtain ⟨c, cs, hdata, hdig⟩ := formatYM_head_digit y m
  intro he
  have h1 : ("Unknown" : String).data = c :: cs := he ▸ hdata
  have h2 : c = 'U' := by
    have h1s : c :: cs = 'U' :: "nknown".data := h1.symm
    exact (List.cons_eq_cons.mp h1s).1
  rw [h2] at hdig
  exact absurd hdig (by decide)

/-- The groups of `addTo`: the addressed group gains the transaction at the
end, every other group is unchanged. -/
theorem groupOf_addTo (m : List (String × List PyTx)) (k kk : String) (t : PyTx) :
    groupOf k (addTo m kk t) = if k = kk then groupOf k m ++ [t] else groupOf k m := by
  induction m with
  | nil =>
    by_cases h : k = kk
    · simp [addTo, groupOf, List.find?, h]
    · have h2 : ¬ kk = k := fun he => h he.symm
      simp [addTo, groupOf, List.find?, h, h2]
  | cons g gs ih =>
    by_cases hg : g.1 = kk
    · by_cases h : k = kk
      · have hgk : g.1 = k := hg.trans h.symm
        simp [addTo, groupOf, List.find?, hg, h, hgk]
      · have hgk : ¬ g.1 = k := fun he => h (he.symm.trans hg)
        have h2 : ¬ kk = k := fun he => h he.symm
        simp [addTo, groupOf, List.find?, hg, h, h2, hgk]
    · by_cases hgk : g.1 = k
      · have h : ¬ k = kk := fun he => hg (hgk.trans he)
        simp [addTo, groupOf, List.find?, hg, hgk, h]
      · by_cases h : k = kk <;>
          simpa [addTo, groupOf, List.find?, hg, hgk, h] using ih

/-- The keys of `addTo`: each key was present before or is the new one. -/
theorem keys_addTo_sub (m : List (String × List PyTx)) (k : String) (t : PyTx) :
    ∀ x ∈ (addTo m k t).map Prod.fst, x ∈ m.map Prod.fst ∨ x = k := by
  induction m with
  | nil => simp [addTo]
  | cons g gs ih =>
    intro x hx
    by_cases hg : g.1 = k
    · rw [addTo, if_pos hg] at hx
      rcases List.mem_cons.mp hx with rfl | hx
      · exact Or.inl (List.mem_cons_self _ _)
      · exact Or.inl (List.mem_cons_of_mem _ hx)
    · rw [addTo, if_neg hg] at hx
      rcases List.mem_cons.mp hx with rfl | hx
      · exact Or.inl (List.mem_cons_self _ _)
      · rcases ih x hx with h | h
        · exact Or.inl (List.mem_cons_of_mem _ h)
        · exact Or.inr h

/-- `addTo` keeps the group keys duplicate-free. -/
theorem keys_addTo_nodup (m : List (String × List PyTx)) (k : String) (t : PyTx)
    (h : (m.map Prod.fst).Nodup) : ((addTo m k t).map Prod.fst).Nodup := by
  induction m with
  | nil => simp [addTo]
  | cons g gs ih =>
    rw [List.map_cons, List.nodup_cons] at h
    by_cases hg : g.1 = k
    · rw [addTo, if_pos hg]
      simpa [List.nodup_cons] using h
    · rw [addTo, if_neg hg]
      rw [List.map_cons, List.nodup_cons]
      refine ⟨fun hx => ?_, ih h.2⟩
      rcases keys_addTo_sub gs k t _ hx with hx' | hx'
      · exact h.1 hx'
      · exact hg (hx'.symm ▸ rfl)

/-- Fold form of `organize`: membership in a group is stable under adding
more transactions. -/
theorem foldl_addTo_mem (txs : List PyTx) (acc : List (String × List PyTx))
    (k : String) (t : PyTx) (h : t ∈ groupOf k acc) :
    t ∈ groupOf k (txs.foldl (fun a x => addTo a (monthKeyOf x) x) acc) := by
  induction txs generalizing acc with
  | nil => exact h
  | cons x xs ih =>
    rw [List.foldl_cons]
    refine ih _ ?_
    rw [groupOf_addTo]
    by_cases hk : k = monthKeyOf x
    · rw [if_pos hk]; exact List.mem_append_left _ h
    · rw [if_neg hk]; exact h

/-- Every transaction lands in the group of its month key, whatever the
accumulated groups so far. -/
theorem mem_groupOf_foldl (txs : List PyTx) (t : PyTx) (h : t ∈ txs) :
    ∀ acc, t ∈ groupOf (monthKeyOf t)
      (txs.foldl (fun a x => addTo a (monthKeyOf x) x) acc) := by
  induction txs with
  | nil => simp at h
  | cons x xs ih =>
    intro acc
    rw [List.foldl_cons]
    rcases List.mem_cons.mp h with rfl | h'
    · refine foldl_addTo_mem xs _ _ _ ?_
      rw [groupOf_addTo, if_pos rfl]
      exact List.mem_append_right _ (List.mem_singleton.mpr rfl)
    · exact ih h' _

/-- Every transaction lands in the group of its month key. -/
theorem mem_groupOf_organize (txs : List PyTx) (t : PyTx) (h : t ∈ txs) :
    t ∈ groupOf (monthKeyOf t) (organize txs) :=
  mem_groupOf_foldl txs t h []

/-- Any property of all month keys propagates to all group keys of the fold. -/
theorem foldl_keys_P (P : String → Prop) (hkey : ∀ t : PyTx, P (monthKeyOf t))
    (txs : List PyTx) : ∀ acc, (∀ x ∈ acc.map Prod.fst, P x) →
      ∀ x ∈ ((txs.foldl (fun a t => addTo a (monthKeyOf t) t) acc).map Prod.fst), P x := by
  induction txs with
  | nil => intro acc hacc; exact hacc
  | cons t ts ih =>
    intro acc hacc
    rw [List.foldl_cons]
    refine ih _ ?_
    intro x hx
    rcases keys_addTo_sub acc (monthKeyOf t) t x hx with h | h
    · exact hacc x h
    · rw [h]; exact hkey t

/-- Each group key of `organize` is the sentinel or a formatted month key. -/
theorem organize_keys (txs : List PyTx) :
    ∀ x ∈ (organize txs).map Prod.fst,
      x = "Unknown" ∨ ∃ y mo, x = formatYM y mo := by
  refine foldl_keys_P _ ?_ txs [] (by simp)
  intro t
  unfold monthKeyOf
  cases h : extractMonthYear (t.date.getD "") with
  | none => exact Or.inl rfl
  | some k =>
    unfold extractMonthYear at h
    cases he : extractYM (t.date.getD "") with
    | none => rw [he] at h; simp at h
    | some ym =>
      rw [he] at h
      have h2 : formatYM ym.1 ym.2 = k := by simpa using h
      exact Or.inr ⟨ym.1, ym.2, h2.symm⟩

/-- The group keys of the fold stay duplicate-free. -/
theorem foldl_keys_nodup (txs : List PyTx) : ∀ acc, (acc.map Prod.fst).Nodup →
    (((txs.foldl (fun a t => addTo a (monthKeyOf t) t) acc)).map Prod.fst).Nodup := by
  induction txs with
  | nil => intro acc hacc; exact hacc
  | cons t ts ih =>
    intro acc hacc
    rw [List.foldl_cons]
    exact ih _ (keys_addTo_nodup acc (monthKeyOf t) t hacc)

/-- The group keys of `organize` are duplicate-free. -/
theorem organize_keys_nodup (txs : List PyTx) : ((organize txs).map Prod.fst).Nodup :=
  foldl_keys_nodup txs [] (by simp)

/-- A nonempty group's key is among the group keys. -/
theorem key_mem_of_groupOf {k : String} {m : List (String × List PyTx)} {t : PyTx}
    (h : t ∈ groupOf k m) : k ∈ m.map Prod.fst := by
  unfold groupOf at h
  cases hf : m.find? (fun g => g.1 = k) with
  | none => rw [hf] at h; simp at h
  | some g =>
    have hp := List.find?_some hf
    have hg1 : g.1 = k := by simpa using hp
    exact hg1 ▸ List.mem_map_of_mem Prod.fst (List.mem_of_find?_eq_some hf)

/-- In a list sorted by the sentinel sort key, with no duplicates, the
`Unknown` sentinel can only sit at the end. -/
theorem getLast_of_pairwise (l : List String)
    (hs : l.Pairwise (fun a b => pySortKey a ≤ pySortKey b))
    (hnd : l.Nodup) (hu : "Unknown" ∈ l)
    (hother : ∀ x ∈ l, x ≠ "Unknown" → ¬ (("ZZZZ" : String) ≤ pySortKey x)) :
    l.getLast? = some "Unknown" := by
  induction l with
  | nil => simp at hu
  | cons a as ih =>
    rcases List.mem_cons.mp hu with rfl | hu'
    · cases as with
      | nil => rfl
      | cons b bs =>
        exfalso
        have hle : pySortKey "Unknown" ≤ pySortKey b :=
          (List.pairwise_cons.mp hs).1 b (List.mem_cons_self b bs)
        have hbne : b ≠ "Unknown" := by
          intro hbe
          exact (List.nodup_cons.mp hnd).1 (hbe ▸ List.mem_cons_self b bs)
        refine hother b (List.mem_cons_of_mem _ (List.mem_cons_self b bs)) hbne ?_
        have hkey : pySortKey "Unknown" = "ZZZZ" := by unfold pySortKey; simp
        rw [hkey] at hle
        exact hle
    · cases as with
      | nil => simp at hu'
      | cons b bs =>
        rw [List.getLast?_cons_cons]
        exact ih (List.pairwise_cons.mp hs).2 (List.nodup_cons.mp hnd).2 hu'
          (fun x hx hxne => hother x (List.mem_cons_of_mem _ hx) hxne)

/-- `sorted_months` is sorted by the sentinel sort key. -/
theorem sortedMonths_pairwise (txs : List PyTx) :
    (sortedMonths txs).Pairwise (fun a b => pySortKey a ≤ pySortKey b) := by
  unfold sortedMonths
  refine List.Pairwise.imp (fun hab => of_decide_eq_true hab)
    (List.sorted_mergeSort ?_ ?_ ((organize txs).map Prod.fst))
  · intro a b c h1 h2
    exact decide_eq_true (le_trans (of_decide_eq_true h1) (of_decide_eq_true h2))
  · intro a b
    rcases le_total (pySortKey a) (pySortKey b) with h | h <;> simp [h]

/-- C6: a transaction whose date does not normalize lands in the `Unknown`
group, and the `Unknown` tab always sorts after every `YYYY-MM` tab;
aggregation is a total function of the batch (it never fails). -/
theorem c6_unknown_bucket (txs : List PyTx) (t : PyTx) (ht : t ∈ txs)
    (hd : extractMonthYear (t.date.getD "") = none) :
    t ∈ groupOf "Unknown" (organize txs) ∧
    (sortedMonths txs).getLast? = some "Unknown" := by
  have hkt : monthKeyOf t = "Unknown" := by unfold monthKeyOf; rw [hd]
  have h1 := mem_groupOf_organize txs t ht
  rw [hkt] at h1
  refine ⟨h1, ?_⟩
  have hukeys : "Unknown" ∈ (organize txs).map Prod.fst := key_mem_of_groupOf h1
  have humem : "Unknown" ∈ sortedMonths txs := by
    unfold sortedMonths
    exact List.mem_mergeSort.mpr hukeys
  refine getLast_of_pairwise _ (sortedMonths_pairwise txs) ?_ humem ?_
  · unfold sortedMonths
    exact ((List.mergeSort_perm _ _).nodup_iff).mpr (organize_keys_nodup txs)
  · intro x hx hxne
    have hxkeys : x ∈ (organize txs).map Prod.fst := by
      unfold sortedMonths at hx
      exact List.mem_mergeSort.mp hx
    rcases organize_keys txs x hxkeys with h | ⟨y, mo, rfl⟩
    · exact absurd h hxne
    · have hsk : pySortKey (formatYM y mo) = formatYM y mo := by
        unfold pySortKey
        rw [if_pos (formatYM_ne_Unknown y mo)]
      rw [hsk]
      exact not_le.mpr (formatYM_lt_ZZZZ y mo)

/-- Witness for `c6_unknown_bucket`: a single transaction dated `garbage`. -/
theorem c6_unknown_bucket_witness :
    ({ date := some "garbage" } : PyTx) ∈
      groupOf "Unknown" (organize [({ date := some "garbage" } : PyTx)]) ∧
    (sortedMonths [({ date := some "garbage" } : PyTx)]).getLast? = some "Unknown" :=
  c6_unknown_bucket _ _ (List.mem_singleton.mpr rfl) (by decide)

end BankSpec
